import Mathlib

/-!
# Verification of the quty-server cluster core

A shallow embedding of the quty-server publish/subscribe cluster
(`src/lib/logger.js` ChannelHub, `src/lib/util.js` wire codec,
`src/lib/QutyClient.js` token create/verify, `src/unnamed/part_003`
QutyCluster), with theorems settling the specification claims.

JavaScript strings on the wire are modelled as UTF-8 byte sequences
(`List Nat`).  The ASCII delimiters the code splits on (`|` = 124,
`-` = 45, `:` = 58) occupy single bytes, and UTF-8 continuation bytes
are ≥ 0x80, so byte-level splitting agrees with JavaScript's
code-unit splitting on these delimiters.
-/

namespace Quty

/-! ## JSON values

`JVal` models the JSON values exchanged by the program: strings (as UTF-8
bytes), numbers (the program only produces integral numbers: `_q`, `_v`,
`_t`, `_e`, `port`, so numbers are modelled as integers), booleans, null,
arrays and objects (key/value lists in insertion order, the order in
which JavaScript iterates object keys). -/

inductive JVal where
  | str (s : List Nat)
  | num (n : Int)
  | jbool (b : Bool)
  | jnull
  | arr (es : List JVal)
  | obj (fs : List (List Nat × JVal))
deriving Repr

/-! ### Association-list helpers for JavaScript objects

A JavaScript object with string keys is an insertion-ordered key/value
list.  `objGet` is property read (on duplicate keys `JSON.parse` keeps
the last binding, so the last match is read), `objSet` is `o[k] = v`
(update in place, else append), `objDel` is `delete o[k]`. -/

def objGet (fs : List (List Nat × JVal)) (k : List Nat) : Option JVal :=
  match fs with
  | [] => none
  | (k0, v0) :: rest =>
    match objGet rest k with
    | some v => some v
    | none => if k0 = k then some v0 else none

def objSet (fs : List (List Nat × JVal)) (k : List Nat) (v : JVal) :
    List (List Nat × JVal) :=
  match fs with
  | [] => [(k, v)]
  | (k0, v0) :: rest =>
    if k0 = k then (k0, v) :: rest else (k0, v0) :: objSet rest k v

def objDel (fs : List (List Nat × JVal)) (k : List Nat) :
    List (List Nat × JVal) :=
  fs.filter (fun p => p.1 ≠ k)

/-- JavaScript truthiness of a JSON value (`0`, `""`, `null`, `false` are
falsy; every object and array is truthy). -/
def jTruthy : JVal → Bool
  | .str s => s ≠ []
  | .num n => n ≠ 0
  | .jbool b => b
  | .jnull => false
  | .arr _ => true
  | .obj _ => true

/-! ### Rendering (`JSON.stringify`)

`JSON.stringify` escapes `"` and `\`, the controls `\b \t \n \f \r` as
two-character escapes, every other byte below 0x20 as `\u00xx`
(lowercase hex), and leaves all other bytes alone. -/

def hexDigit (d : Nat) : Nat :=
  if d < 10 then 48 + d else 87 + d

def escByte (b : Nat) : List Nat :=
  if b = 34 then [92, 34]
  else if b = 92 then [92, 92]
  else if b = 8 then [92, 98]
  else if b = 9 then [92, 116]
  else if b = 10 then [92, 110]
  else if b = 12 then [92, 102]
  else if b = 13 then [92, 114]
  else if b < 32 then [92, 117, 48, 48, hexDigit (b / 16), hexDigit (b % 16)]
  else [b]

/-- A JSON string literal: quote, escaped bytes, quote. -/
def strRender (s : List Nat) : List Nat :=
  34 :: (s.flatMap escByte ++ [34])

/-- Decimal digit bytes of `n`, most significant first; auxiliary fuel
recursion (`n` itself always suffices as fuel). -/
def natDigsAux : Nat → Nat → List Nat
  | _, 0 => []
  | n, fuel + 1 => if n = 0 then [] else natDigsAux (n / 10) fuel ++ [48 + n % 10]

/-- Decimal digit bytes of `n`, most significant first (`"0"` for zero). -/
def natDigs (n : Nat) : List Nat :=
  if n = 0 then [48] else natDigsAux n n

/-- A JavaScript integer's decimal text: optional minus sign, digits. -/
def intRender (i : Int) : List Nat :=
  if i < 0 then 45 :: natDigs i.natAbs else natDigs i.natAbs

mutual

def jrender : JVal → List Nat
  | .str s => strRender s
  | .num i => intRender i
  | .jbool true => [116, 114, 117, 101]
  | .jbool false => [102, 97, 108, 115, 101]
  | .jnull => [110, 117, 108, 108]
  | .arr es => 91 :: (jrenderItems es ++ [93])
  | .obj fs => 123 :: (jrenderFields fs ++ [125])

def jrenderItems : List JVal → List Nat
  | [] => []
  | [e] => jrender e
  | e :: es => jrender e ++ 44 :: jrenderItems es

def jrenderFields : List (List Nat × JVal) → List Nat
  | [] => []
  | [(k, v)] => strRender k ++ 58 :: jrender v
  | (k, v) :: fs => strRender k ++ 58 :: jrender v ++ 44 :: jrenderFields fs

end

/-! ### Parsing (`JSON.parse`)

A total recursive-descent parser over bytes, structural on a fuel
counter (the byte count of the input suffices, as every recursive call
consumes at least one byte first). -/

def isWsB (b : Nat) : Bool :=
  b = 32 || b = 9 || b = 10 || b = 13

def skipWsB : List Nat → List Nat
  | b :: r => if isWsB b then skipWsB r else b :: r
  | [] => []

def isDigB (b : Nat) : Bool :=
  48 ≤ b && b ≤ 57

def grabDigs : List Nat → List Nat × List Nat
  | b :: r =>
    if isDigB b then
      let p := grabDigs r
      (b :: p.1, p.2)
    else ([], b :: r)
  | [] => ([], [])

def digsVal (l : List Nat) : Nat :=
  l.foldl (fun a b => a * 10 + (b - 48)) 0

def numParse (input : List Nat) : Option (Int × List Nat) :=
  match input with
  | 45 :: r =>
    let p := grabDigs r
    if p.1 = [] then none else some (-(digsVal p.1 : Int), p.2)
  | _ =>
    let p := grabDigs input
    if p.1 = [] then none else some ((digsVal p.1 : Int), p.2)

def hexValB (b : Nat) : Option Nat :=
  if 48 ≤ b ∧ b ≤ 57 then some (b - 48)
  else if 97 ≤ b ∧ b ≤ 102 then some (b - 87)
  else if 65 ≤ b ∧ b ≤ 70 then some (b - 55)
  else none

/-- UTF-8 encoding of a code point below 0x10000 (the range `\uXXXX`
escapes can denote). -/
def utf8Bytes (n : Nat) : List Nat :=
  if n < 128 then [n]
  else if n < 2048 then [192 + n / 64, 128 + n % 64]
  else [224 + n / 4096, 128 + n / 64 % 64, 128 + n % 64]

def unescByte (b : Nat) : Option Nat :=
  if b = 34 then some 34
  else if b = 92 then some 92
  else if b = 47 then some 47
  else if b = 98 then some 8
  else if b = 102 then some 12
  else if b = 110 then some 10
  else if b = 114 then some 13
  else if b = 116 then some 9
  else none

/-- Parse a string body after the opening quote; `acc` holds the bytes
read so far, reversed. -/
def strParseAux (acc : List Nat) : List Nat → Option (List Nat × List Nat)
  | 34 :: r => some (acc.reverse, r)
  | 92 :: 117 :: a :: b :: c :: d :: r =>
    match hexValB a, hexValB b, hexValB c, hexValB d with
    | some x, some y, some z, some w =>
      strParseAux ((utf8Bytes (((x * 16 + y) * 16 + z) * 16 + w)).reverse ++ acc) r
    | _, _, _, _ => none
  | 92 :: e :: r =>
    match unescByte e with
    | some x => strParseAux (x :: acc) r
    | none => none
  | b :: r => strParseAux (b :: acc) r
  | [] => none

mutual

def jparse : Nat → List Nat → Option (JVal × List Nat)
  | 0, _ => none
  | fuel + 1, input =>
    match skipWsB input with
    | [] => none
    | b :: r =>
      if b = 110 then
        match r with
        | 117 :: 108 :: 108 :: r1 => some (.jnull, r1)
        | _ => none
      else if b = 116 then
        match r with
        | 114 :: 117 :: 101 :: r1 => some (.jbool true, r1)
        | _ => none
      else if b = 102 then
        match r with
        | 97 :: 108 :: 115 :: 101 :: r1 => some (.jbool false, r1)
        | _ => none
      else if b = 34 then
        match strParseAux [] r with
        | some (s, r1) => some (.str s, r1)
        | none => none
      else if b = 91 then
        match skipWsB r with
        | 93 :: r1 => some (.arr [], r1)
        | r1 =>
          match jparseItems fuel r1 with
          | some (es, r2) => some (.arr es, r2)
          | none => none
      else if b = 123 then
        match skipWsB r with
        | 125 :: r1 => some (.obj [], r1)
        | r1 =>
          match jparseFields fuel r1 with
          | some (fs, r2) => some (.obj fs, r2)
          | none => none
      else if b = 45 || isDigB b then
        match numParse (b :: r) with
        | some (i, r1) => some (.num i, r1)
        | none => none
      else none

def jparseItems : Nat → List Nat → Option (List JVal × List Nat)
  | 0, _ => none
  | fuel + 1, input =>
    match jparse fuel input with
    | none => none
    | some (v, r) =>
      match skipWsB r with
      | 44 :: r1 =>
        match jparseItems fuel (skipWsB r1) with
        | some (vs, r2) => some (v :: vs, r2)
        | none => none
      | 93 :: r1 => some ([v], r1)
      | _ => none

def jparseFields : Nat → List Nat → Option (List (List Nat × JVal) × List Nat)
  | 0, _ => none
  | fuel + 1, input =>
    match skipWsB input with
    | 34 :: r =>
      match strParseAux [] r with
      | none => none
      | some (k, r1) =>
        match skipWsB r1 with
        | 58 :: r2 =>
          match jparse fuel (skipWsB r2) with
          | none => none
          | some (v, r3) =>
            match skipWsB r3 with
            | 44 :: r4 =>
              match jparseFields fuel (skipWsB r4) with
              | some (fs, r5) => some ((k, v) :: fs, r5)
              | none => none
            | 125 :: r4 => some ([(k, v)], r4)
            | _ => none
        | _ => none
    | _ => none

end

/-- `JSON.parse`: one document, nothing but whitespace after it. -/
def jparseFull (input : List Nat) : Option JVal :=
  match jparse (input.length + 1) input with
  | some (v, r) => if skipWsB r = [] then some v else none
  | none => none

/-! ## Base64 (`Buffer.from(..).toString('base64')` and its inverse) -/

def b64Char (n : Nat) : Nat :=
  if n < 26 then 65 + n
  else if n < 52 then 97 + (n - 26)
  else if n < 62 then 48 + (n - 52)
  else if n = 62 then 43
  else 47

def b64Encode : List Nat → List Nat
  | [] => []
  | [a] => [b64Char (a / 4), b64Char (a % 4 * 16), 61, 61]
  | [a, b] => [b64Char (a / 4), b64Char (a % 4 * 16 + b / 16), b64Char (b % 16 * 4), 61]
  | a :: b :: c :: rest =>
    b64Char (a / 4) :: b64Char (a % 4 * 16 + b / 16) ::
      b64Char (b % 16 * 4 + c / 64) :: b64Char (c % 64) :: b64Encode rest

def b64Val (c : Nat) : Nat :=
  if 65 ≤ c ∧ c ≤ 90 then c - 65
  else if 97 ≤ c ∧ c ≤ 122 then c - 71
  else if 48 ≤ c ∧ c ≤ 57 then c + 4
  else if c = 43 then 62
  else if c = 47 then 63
  else 0

/-- Base64 decoding; permissive on ragged tails, as Node's decoder is
(only decodes of well-formed encoder output are reasoned about). -/
def b64Decode : List Nat → List Nat
  | c1 :: c2 :: 61 :: _ => [b64Val c1 * 4 + b64Val c2 / 16]
  | c1 :: c2 :: c3 :: 61 :: _ =>
    [b64Val c1 * 4 + b64Val c2 / 16, b64Val c2 % 16 * 16 + b64Val c3 / 4]
  | c1 :: c2 :: c3 :: c4 :: rest =>
    (b64Val c1 * 4 + b64Val c2 / 16) :: (b64Val c2 % 16 * 16 + b64Val c3 / 4) ::
      (b64Val c3 % 4 * 64 + b64Val c4) :: b64Decode rest
  | [c1, c2] => [b64Val c1 * 4 + b64Val c2 / 16]
  | _ => []

/-! ## Tokens (`src/lib/QutyClient.js` lines 395-501) -/

/-- Reserved token/payload keys, as byte strings. -/
def kV : List Nat := [95, 118]
def kT : List Nat := [95, 116]
def kE : List Nat := [95, 101]
def kI : List Nat := [95, 105]
def kQ : List Nat := [95, 113]

/-- `token.TYPE = { CLUSTER: 1, HUB: 2 }`. -/
def TYPE_CLUSTER : Int := 1
def TYPE_HUB : Int := 2

/-- Modelled from the spec: the token signature
`crypto.createHmac('sha256', secret).update(b64Data).digest('base64')` —
HMAC-SHA256 is a platform crypto primitive, not part of this repository's
sources.  The spec treats it as an opaque collision-free MAC rendered as
base64 text, so it is modelled as an injective keyed MAC: base64 of the
length-prefixed secret followed by the message. -/
def hmacB64 (secret msg : List Nat) : List Nat :=
  b64Encode (natDigs secret.length ++ 58 :: (secret ++ msg))

/-- `token.create(data, opt)` (QutyClient.js lines 429-450).  `expire` is
the resolved `_e` value (`opt.expire`, or `Date.now() + opt.ttl`); `none`
when neither option is given.  An empty secret is falsy, so no signature
is appended; a falsy (empty) `opt.id` is not recorded. -/
def tokenCreate (data : List (List Nat × JVal)) (expire : Option Int)
    (secret : List Nat) (typeOpt : Option Int) (idOpt : Option (List Nat)) :
    List Nat :=
  let d1 := match expire with
    | some e => objSet data kE (.num e)
    | none => data
  let d2 := objSet d1 kV (.num 1)
  let d3 := objSet d2 kT (.num (typeOpt.getD TYPE_HUB))
  let d4 := match idOpt with
    | some i => if i = [] then d3 else objSet d3 kI (.str i)
    | none => d3
  let b64Data := b64Encode (jrender (.obj d4))
  if secret = [] then b64Data else b64Data ++ 45 :: hmacB64 secret b64Data

/-- `token.split('-')`. -/
def splitByte (d : Nat) : List Nat → List (List Nat)
  | [] => [[]]
  | b :: r =>
    if b = d then [] :: splitByte d r
    else
      match splitByte d r with
      | [] => [[b]]
      | x :: xs => (b :: x) :: xs

def jGet (v : JVal) (k : List Nat) : Option JVal :=
  match v with
  | .obj fs => objGet fs k
  | _ => none

def jDel (v : JVal) (k : List Nat) : JVal :=
  match v with
  | .obj fs => .obj (objDel fs k)
  | x => x

/-- Strict equality of a JSON value with a JavaScript number literal. -/
def isNumVal (v : JVal) (t : Int) : Bool :=
  match v with
  | .num n => n = t
  | _ => false

def vIsObjLike : JVal → Bool
  | .arr _ => true
  | .obj _ => true
  | _ => false

/-- `jsonData._v !== TOKEN_VERSION` rejection, then `delete jsonData._v`. -/
def vCheckVersion (v : JVal) : Option JVal :=
  match jGet v kV with
  | some x => if isNumVal x 1 then some (jDel v kV) else none
  | none => none

/-- The `_t` check when `opt.type` is given, then `delete jsonData._t`. -/
def vCheckType (typeOpt : Option Int) (v : JVal) : Option JVal :=
  match typeOpt with
  | none => some v
  | some t =>
    match jGet v kT with
    | some x => if isNumVal x t then some (jDel v kT) else none
    | none => none

/-- The `if (jsonData._e) { if (_e < now) reject; delete _e }` step.  The
program only ever writes numeric `_e`; for a non-numeric truthy `_e` the
JavaScript `<` comparison (after coercion) is taken as false. -/
def vCheckExpire (now : Int) (v : JVal) : Option JVal :=
  match jGet v kE with
  | none => some v
  | some e =>
    if jTruthy e then
      match e with
      | .num x => if x < now then none else some (jDel v kE)
      | _ => some (jDel v kE)
    else some v

/-- The signature comparison; with no secret the token is accepted
unsigned, with a secret a missing signature component (`undefined`)
compares unequal to the recomputed one. -/
def vCheckSig (secret b64Data : List Nat) (b64Sign : Option (List Nat))
    (v : JVal) : Option JVal :=
  if secret = [] then some v
  else
    match b64Sign with
    | some sg => if sg = hmacB64 secret b64Data then some v else none
    | none => none

/-- `token.verify(token, opt)` (QutyClient.js lines 464-493); `now` is
`Date.now()` at verification time. -/
def tokenVerify (tok : List Nat) (typeOpt : Option Int) (secret : List Nat)
    (now : Int) : Option JVal :=
  if tok = [] then none
  else
    let parts := splitByte 45 tok
    if 2 < parts.length then none
    else
      let b64Data := parts.headD []
      match jparseFull (b64Decode b64Data) with
      | none => none
      | some v =>
        if !vIsObjLike v then none
        else
          (vCheckVersion v).bind (fun v1 =>
            (vCheckType typeOpt v1).bind (fun v2 =>
              (vCheckExpire now v2).bind (fun v3 =>
                vCheckSig secret b64Data parts[1]? v3)))

/-! ## Wire frames (`src/lib/util.js` lines 316-373) -/

/-- The representable frame payload shapes (`util.sendSocketEvent`'s
`data` argument): a JSON object, a JSON array, a raw string, or
`undefined`.  Other scalars pass through the template literal as their
text, i.e. as raw strings. -/
inductive WireData where
  | wobj (fs : List (List Nat × JVal))
  | warr (es : List JVal)
  | raw (s : List Nat)
  | undef
deriving Repr

/-- `util.sendSocketEvent` payload: `none` models `return false` (empty
or non-string event tag).  `seq` is the module-level `sendSeq` counter
spliced into object payloads as `_q`; on an array the `_q` assignment
creates a non-index property that `JSON.stringify` omits. -/
def encodeFrame (event : List Nat) (d : WireData) (seq : Int) :
    Option (List Nat) :=
  if event = [] then none
  else
    let payload :=
      match d with
      | .wobj fs => jrender (.obj (objSet fs kQ (.num seq)))
      | .warr es => jrender (.arr es)
      | .raw s => s
      | .undef => []
    some (event ++ 124 :: payload)

/-- A decoded frame's `data` field. -/
inductive DecData where
  | draw (s : List Nat)
  | dobj (fs : List (List Nat × JVal))
  | darr (es : List JVal)
deriving Repr

structure Decoded where
  event : List Nat
  seq : Option Int
  data : DecData
deriving Repr

/-- `data.indexOf('|')` and the split around the first occurrence. -/
def splitFirst (d : Nat) : List Nat → Option (List Nat × List Nat)
  | [] => none
  | b :: r =>
    if b = d then some ([], r)
    else (splitFirst d r).map (fun p => (b :: p.1, p.2))

/-- `util.parseSocketEvent` (util.js lines 350-373): split on the first
`|`; a remainder whose first byte is `{` or `[` goes through `JSON.parse`
(failure makes the whole frame malformed) with a numeric `_q` stripped
into `seq`; anything else is a raw string, the empty remainder decoding
to the empty string.  A parse of input starting with a brace or bracket
only ever yields an object or array, so the final fallthrough is dead. -/
def decodeFrame (data : List Nat) : Option Decoded :=
  if data = [] then none
  else
    match splitFirst 124 data with
    | none => none
    | some (ev, rest) =>
      match rest with
      | [] => some ⟨ev, none, .draw []⟩
      | b :: _ =>
        if b = 123 || b = 91 then
          match jparseFull rest with
          | none => none
          | some (.obj fs) =>
            match objGet fs kQ with
            | some (.num q) => some ⟨ev, some q, .dobj (objDel fs kQ)⟩
            | _ => some ⟨ev, none, .dobj fs⟩
          | some (.arr es) => some ⟨ev, none, .darr es⟩
          | some _ => none
        else some ⟨ev, none, .draw rest⟩

/-! ## The ChannelHub (`src/lib/logger.js` lines 66-319)

A pure state machine: every operation returns the next state and the
list of events it emits, in emission order.  No registered listener of
this hub mutates it (the cluster's listeners only send frames), so the
event list is a faithful account of an operation's effects. -/

inductive HEvent where
  | channelAdd (c : String)
  | channelRemove (c : String)
  | channelMessage (c m : String)
  | nodeJoin (c sid : String)
  | nodeLeave (c sid : String)
  | nodeMessage (c sid m : String)
  | nodeBroadcast (c m : String)
  | clientJoin (c cid : String)
  | clientLeave (c cid : String)
  | clientMessage (c cid m : String)
deriving Repr, DecidableEq

structure Hub where
  nodeChannels : List (String × List String)
  clientChannels : List (String × List String)
deriving Repr, DecidableEq

def emptyHub : Hub := ⟨[], []⟩

/-- JavaScript object read (`o[k]`); the hub's maps hold each key once. -/
def alGet {α : Type} : List (String × α) → String → Option α
  | [], _ => none
  | (k0, v) :: r, k => if k0 = k then some v else alGet r k

/-- JavaScript object write (`o[k] = v`). -/
def alSet {α : Type} : List (String × α) → String → α → List (String × α)
  | [], k, v => [(k, v)]
  | (k0, v0) :: r, k, v =>
    if k0 = k then (k0, v) :: r else (k0, v0) :: alSet r k v

/-- JavaScript `delete o[k]`. -/
def alDel {α : Type} (m : List (String × α)) (k : String) : List (String × α) :=
  m.filter (fun p => p.1 ≠ k)

/-- `ChannelHub.subscribeNode` (logger.js lines 103-113). -/
def subscribeNode (h : Hub) (sid c : String) : Hub × List HEvent :=
  let p :=
    match alGet h.nodeChannels c with
    | none => ({ h with nodeChannels := alSet h.nodeChannels c [] },
               [HEvent.channelAdd c])
    | some _ => (h, ([] : List HEvent))
  match alGet p.1.nodeChannels c with
  | none => p
  | some l =>
    if sid ∈ l then p
    else ({ p.1 with nodeChannels := alSet p.1.nodeChannels c (l ++ [sid]) },
          p.2 ++ [HEvent.nodeJoin c sid])

/-- `ChannelHub.unsubscribeNode` (logger.js lines 121-132): `splice` at
`indexOf` removes the first occurrence; the channel entry is deleted, and
`channel.remove` emitted, whenever the remaining node list is empty —
the client side is not consulted. -/
def unsubscribeNode (h : Hub) (sid c : String) : Hub × List HEvent :=
  match alGet h.nodeChannels c with
  | none => (h, [])
  | some l =>
    let l1 := if sid ∈ l then l.erase sid else l
    let ev1 := if sid ∈ l then [HEvent.nodeLeave c sid] else []
    if l1 = [] then
      ({ h with nodeChannels := alDel h.nodeChannels c },
       ev1 ++ [HEvent.channelRemove c])
    else ({ h with nodeChannels := alSet h.nodeChannels c l1 }, ev1)

/-- `ChannelHub.isNodeSubscribed` (logger.js lines 140-144). -/
def isNodeSubscribed (h : Hub) (sid c : String) : Bool :=
  match alGet h.nodeChannels c with
  | none => false
  | some l => decide (sid ∈ l)

/-- `ChannelHub.getNodeSubscriptions` (logger.js lines 151-161). -/
def getNodeSubscriptions (h : Hub) (sid : String) : List String :=
  (h.nodeChannels.filter (fun p => decide (sid ∈ p.2))).map (fun p => p.1)

/-- `ChannelHub.subscribeClient` (logger.js lines 186-197): the node is
subscribed first, then the client id is appended on transition. -/
def subscribeClient (h : Hub) (sid cid c : String) : Hub × List HEvent :=
  let p := subscribeNode h sid c
  let cc0 :=
    match alGet p.1.clientChannels c with
    | none => alSet p.1.clientChannels c []
    | some _ => p.1.clientChannels
  match alGet cc0 c with
  | none => ({ p.1 with clientChannels := cc0 }, p.2)
  | some l =>
    if cid ∈ l then ({ p.1 with clientChannels := cc0 }, p.2)
    else ({ p.1 with clientChannels := alSet cc0 c (l ++ [cid]) },
          p.2 ++ [HEvent.clientJoin c cid])

/-- `ChannelHub.isClientSubscribed` (logger.js lines 224-228). -/
def isClientSubscribed (h : Hub) (cid c : String) : Bool :=
  match alGet h.clientChannels c with
  | none => false
  | some l => decide (cid ∈ l)

/-- The node phase of `removeChannel`: repeatedly unsubscribe the last
node of the channel, re-reading the array each iteration (logger.js
lines 265-271).  One iteration removes exactly one element, so an
iteration budget of the entry's length is exact. -/
def nodesLoop : Nat → Hub → String → Hub × List HEvent
  | 0, h, _ => (h, [])
  | iter + 1, h, c =>
    match alGet h.nodeChannels c with
    | none => (h, [])
    | some l =>
      match l.getLast? with
      | none => (h, [])
      | some sid =>
        let p := unsubscribeNode h sid c
        let q := nodesLoop iter p.1 c
        (q.1, p.2 ++ q.2)

mutual

/-- `ChannelHub.removeChannel` (logger.js lines 264-281).  `d` bounds the
`unsubscribeClient → removeChannel` re-entrancy; a re-entrant call always
finds the channel's client entry already deleted, so its client phase is
empty and a budget of 2 realises the exact JavaScript behaviour from
every state. -/
def removeChannelAux : Nat → Hub → String → Hub × List HEvent
  | d, h, c =>
    let p1 :=
      match alGet h.nodeChannels c with
      | none => (h, [])
      | some l => nodesLoop (l.length + 1) h c
    let p2 :=
      match alGet p1.1.clientChannels c with
      | none => (p1.1, [])
      | some l => clientsLoop d (l.length + 1) p1.1 c
    (p2.1, p1.2 ++ p2.2)

/-- The client phase of `removeChannel` (logger.js lines 273-280). -/
def clientsLoop : Nat → Nat → Hub → String → Hub × List HEvent
  | _, 0, h, _ => (h, [])
  | d, iter + 1, h, c =>
    match alGet h.clientChannels c with
    | none => (h, [])
    | some l =>
      match l.getLast? with
      | none => (h, [])
      | some cid =>
        let p := unsubscribeClientAux d h cid c
        let q := clientsLoop d iter p.1 c
        (q.1, p.2.1 ++ q.2)

/-- `ChannelHub.unsubscribeClient` (logger.js lines 205-216): removing
the last client of a channel deletes the entry and cascades into
`removeChannel`.  Returns the state, the events, and the boolean result. -/
def unsubscribeClientAux : Nat → Hub → String → String → Hub × List HEvent × Bool
  | d, h, cid, c =>
    match alGet h.clientChannels c with
    | none => (h, [], false)
    | some l =>
      if cid ∈ l then
        let l1 := l.erase cid
        if l1 = [] then
          let h1 := { h with clientChannels := alDel h.clientChannels c }
          match d with
          | 0 => (h1, [HEvent.clientLeave c cid], true)
          | d1 + 1 =>
            let p := removeChannelAux d1 h1 c
            (p.1, HEvent.clientLeave c cid :: p.2, true)
        else
          ({ h with clientChannels := alSet h.clientChannels c l1 },
           [HEvent.clientLeave c cid], true)
      else (h, [], false)

end

def removeChannel (h : Hub) (c : String) : Hub × List HEvent :=
  removeChannelAux 2 h c

def unsubscribeClient (h : Hub) (cid c : String) : Hub × List HEvent × Bool :=
  unsubscribeClientAux 2 h cid c

/-- `ChannelHub.removeClient` (logger.js lines 235-242): a snapshot of
the client channel keys, each unsubscribed in turn; returns true. -/
def removeClient (h : Hub) (cid : String) : Hub × List HEvent :=
  (h.clientChannels.map (fun p => p.1)).foldl
    (fun acc c =>
      let p := unsubscribeClientAux 2 acc.1 cid c
      (p.1, acc.2 ++ p.2.1))
    (h, [])

/-- `ChannelHub.removeNode` (logger.js lines 168-175). -/
def removeNode (h : Hub) (sid : String) : Hub × List HEvent :=
  (h.nodeChannels.map (fun p => p.1)).foldl
    (fun acc c =>
      let p := unsubscribeNode acc.1 sid c
      (p.1, acc.2 ++ p.2))
    (h, [])

/-- `ChannelHub.sendMessage` (logger.js lines 287-315).  `m` is the
message after the entry `JSON.stringify` of object payloads; `ignoreNodes`
is the truthiness of the fourth argument.  When the channel has no node
entry, `node.broadcast` is emitted unconditionally — there is no
broadcast suppression switch.  The boolean result is false exactly when
neither map has an entry for the channel. -/
def sendMessage (h : Hub) (c m : String) (senderSid : Option String)
    (ignoreNodes : Bool) : Bool × List HEvent :=
  let evN :=
    match alGet h.nodeChannels c with
    | some l =>
      if ignoreNodes then []
      else l.map (fun sid => HEvent.nodeMessage c sid m)
    | none => [HEvent.nodeBroadcast c m]
  let evC :=
    match alGet h.clientChannels c with
    | some l => l.map (fun cid => HEvent.clientMessage c cid m)
    | none => []
  if (alGet h.nodeChannels c).isNone ∧ (alGet h.clientChannels c).isNone then
    (false, evN ++ evC)
  else
    let emitChan :=
      match senderSid with
      | none => true
      | some s => if s = "" then true else isNodeSubscribed h s c
    (true, evN ++ evC ++ (if emitChan then [HEvent.channelMessage c m] else []))

/-! ## The cluster (`src/unnamed/part_003`) -/

structure CState where
  selfId : String
  nodes : List (String × String)
  nodeIps : List (String × String)
  pending : List String
deriving Repr, DecidableEq

/-- A frame handed to `util.sendSocketEvent` on a peer socket, identified
by the receiving node id and the event's payload fields. -/
inductive Frame where
  | channelMessage (target : String) (isBroadcast : Bool) (c s m : String)
  | channelJoin (target : String) (c : String)
  | channelLeave (target : String) (c s : String)
deriving Repr, DecidableEq

/-- `broadcast(event, data, excludeSelf)` targets (part_003 lines
95-102): every entry of the `nodes` map, skipping the self socket when
`excludeSelf` is set. -/
def broadcastTargets (st : CState) (excludeSelf : Bool) : List String :=
  (st.nodes.map (fun p => p.1)).filter
    (fun sid => !(excludeSelf && sid = st.selfId))

/-- `_bindChannelHub` (part_003 lines 707-744): the translation of hub
events into per-peer frame sends.  `node.broadcast` sends a
`ChannelMessage` (with the advisory `b:true` marker) to every entry of
the `nodes` map. -/
def hubEventFrames (st : CState) : HEvent → List Frame
  | .nodeJoin c sid =>
    if sid = st.selfId then
      (broadcastTargets st true).map (fun t => Frame.channelJoin t c)
    else []
  | .nodeLeave c sid =>
    if sid = st.selfId then
      (broadcastTargets st true).map (fun t => Frame.channelLeave t c sid)
    else []
  | .nodeMessage c sid m =>
    if sid = st.selfId then []
    else
      match alGet st.nodes sid with
      | none => []
      | some _ => [Frame.channelMessage sid false c sid m]
  | .nodeBroadcast c m =>
    st.nodes.map (fun p => Frame.channelMessage p.1 true c st.selfId m)
  | _ => []

/-- The `CHANNEL_MESSAGE` branch of the cluster's inbound `event`
handler for a peer socket (part_003 lines 599-606):
`hub.sendMessage(e.data.c, e.data.m, sid, {nodes:false, broadcast:false})`.
The fourth argument is an object, hence truthy, so the hub receives a
true `ignoreNodes`; the hub has no separate broadcast switch.  Returns
the hub's boolean (none when the guard `!e.data.c` returns early) and
the frames the emitted events cause to be sent. -/
def receiveChannelMessage (st : CState) (h : Hub) (c m : String)
    (sid : Option String) : Option Bool × List Frame :=
  if c = "" then (none, [])
  else
    let p := sendMessage h c m sid true
    (some p.1, p.2.flatMap (hubEventFrames st))

inductive CEvent where
  | sendNodeInfo (sid : String) (channels : List String)
  | closeSocket
  | nodeAdd (sid : String)
deriving Repr, DecidableEq

/-- `handleClusterClient` (part_003 lines 665-691): an admitted inbound
peer socket.  `sid` is the token's `_i` stashed by the authorizer, `ip`
the canonicalized remote address, `port` the `port` field of the token
payload (`none` when absent; `0` is falsy). -/
def handleClusterClient (st : CState) (h : Hub) (sid ip : String)
    (port : Option Int) : CState × List CEvent :=
  let ev0 := [CEvent.sendNodeInfo st.selfId (getNodeSubscriptions h st.selfId)]
  if ip = "" then (st, ev0)
  else
    match port with
    | none => (st, ev0)
    | some p =>
      if p = 0 then (st, ev0)
      else
        let nodeKey := ip ++ ":" ++ toString p
        match alGet st.nodeIps nodeKey with
        | some _ => (st, ev0 ++ [CEvent.closeSocket])
        | none =>
          ({ st with nodes := alSet st.nodes sid nodeKey,
                     nodeIps := alSet st.nodeIps nodeKey sid },
           ev0 ++ [CEvent.nodeAdd sid])

/-- The address forms `addNode` accepts. -/
inductive Addr where
  | astr (s : String)
  | aobj (ip : Option String) (port : Option Int) (proto : Option String)
  | aother
deriving Repr, DecidableEq

/-- JavaScript `parseInt` on the split port component: value of the
leading decimal digit run (after an optional sign), `none` for `NaN`. -/
def jsParseInt (s : String) : Option Int :=
  let core := fun (l : List Char) (sign : Int) =>
    let ds := l.takeWhile (fun ch => ch.isDigit)
    if ds = [] then (none : Option Int)
    else some (sign * (ds.foldl (fun a ch => a * 10 + (ch.toNat - 48)) 0 : Nat))
  match s.toList with
  | '-' :: r => core r (-1)
  | '+' :: r => core r 1
  | l => core l 1

/-- The address normalization of `addNode` (part_003 lines 210-234):
yields `(proto, ip, port)` or `none` when the trailing
`if (!ip || !port || !proto) return false` fires. -/
def parseAddress (configPort : Int) (a : Addr) : Option (String × String × Int) :=
  match a with
  | .aother => none
  | .aobj ipOpt portOpt protoOpt =>
    match ipOpt with
    | none => none
    | some ip =>
      let port := portOpt.getD configPort
      let proto := protoOpt.getD "ws"
      if ip = "" ∨ port = 0 ∨ proto = "" then none else some (proto, ip, port)
  | .astr s =>
    let pr :=
      match s.splitOn "://" with
      | p :: r :: _ => (some p, r)
      | _ => (none, s)
    let ipPort :=
      match pr.2.splitOn ":" with
      | x :: y :: _ => (some x, jsParseInt y)
      | _ => (some pr.2, some configPort)
    let proto :=
      match pr.1 with
      | some p => if p = "" then "ws" else p
      | none => "ws"
    match ipPort.1, ipPort.2 with
    | some ip, some port =>
      if ip = "" ∨ port = 0 ∨ proto = "" then none else some (proto, ip, port)
    | _, _ => none

/-- The abstracted outcome of the asynchronous dial inside `addNode`:
`connectFail` covers socket failure and the 3 s NodeInfo timeout;
`connected sid cs` means the NODE_INFO frame arrived carrying `_i = sid`
and `c = cs` (`none` when `data.c` is not an array). -/
inductive DialOutcome where
  | connectFail
  | connected (remoteSid : String) (remoteChannels : Option (List String))
deriving Repr, DecidableEq

/-- `QutyCluster.addNode` (part_003 lines 210-298).  Returns the cluster
state, the hub (the NODE_INFO listener subscribes the remote's channels;
the emitted hub events only cause outbound frames), the returned
boolean, and whether `_setClusterReady` was invoked on exit. -/
def addNode (st : CState) (h : Hub) (configPort : Int) (a : Addr)
    (outcome : DialOutcome) : CState × Hub × Bool × Bool :=
  match parseAddress configPort a with
  | none => (st, h, false, false)
  | some (_, ip, port) =>
    let nodeKey := ip ++ ":" ++ toString port
    match alGet st.nodeIps nodeKey with
    | some _ => (st, h, true, false)
    | none =>
      if nodeKey ∈ st.pending then (st, h, false, false)
      else
        let st1 := { st with pending := st.pending ++ [nodeKey] }
        match outcome with
        | .connectFail =>
          ({ st1 with pending := st1.pending.erase nodeKey }, h, false, false)
        | .connected sid cs =>
          let h1 :=
            match cs with
            | some l => l.foldl (fun acc ch => (subscribeNode acc sid ch).1) h
            | none => h
          let trig :=
            match cs with
            | some _ => decide (sid ≠ st.selfId)
            | none => false
          if sid = st.selfId then
            ({ st1 with pending := st1.pending.erase nodeKey }, h1, true, false)
          else
            match alGet st1.nodes sid with
            | some _ => (st1, h1, false, false)
            | none =>
              ({ st1 with nodes := alSet st1.nodes sid nodeKey,
                          nodeIps := alSet st1.nodeIps nodeKey sid,
                          pending := st1.pending.erase nodeKey },
               h1, true, trig)

/-! ## The readiness gate (part_003 lines 59-85, 555-585, 746-761) -/

structure RState where
  ready : Bool
  clusterReady : Bool
  pendingEvents : List Nat
  flushed : List Nat
  readyEmits : Nat
deriving Repr, DecidableEq

def initialRState : RState := ⟨false, false, [], [], 0⟩

/-- `_setClusterReady` (part_003 lines 749-761): guarded flip of both
flags, flush of the queued events in arrival order, one `ready`
emission. -/
def setClusterReady (s : RState) : RState :=
  if s.ready || s.clusterReady then s
  else
    { ready := true, clusterReady := true, pendingEvents := [],
      flushed := s.flushed ++ s.pendingEvents,
      readyEmits := s.readyEmits + 1 }

/-- The code paths that touch the readiness state: the constructor's
zero-peer path, the `maxReadyAfter` timer, `addNode`'s first-peer
trigger, the first received NODE_STATE, and any other inbound event
(queued while not ready, processed directly afterwards). -/
inductive RStep where
  | declareNoPeers
  | declareTimeout
  | declarePeer
  | recvNodeState
  | recvOther (e : Nat)
deriving Repr, DecidableEq

def rstep (s : RState) : RStep → RState
  | .declareNoPeers => setClusterReady s
  | .declareTimeout => setClusterReady s
  | .declarePeer => setClusterReady s
  | .recvNodeState => if s.clusterReady then s else setClusterReady s
  | .recvOther e =>
    if s.clusterReady then s
    else { s with pendingEvents := s.pendingEvents ++ [e] }

def runRSteps (s : RState) (l : List RStep) : RState :=
  l.foldl rstep s

/-- Whether a step is one of the readiness-declaring code paths. -/
def isDeclare : RStep → Bool
  | .declareNoPeers => true
  | .declareTimeout => true
  | .declarePeer => true
  | .recvNodeState => true
  | .recvOther _ => false

/-- The queued event id a step contributes while the cluster is not
ready. -/
def recvOtherId : RStep → Option Nat
  | .recvOther e => some e
  | _ => none

/-! ## The cluster's client-facing proxies (part_003 lines 392-442) -/

/-- A JavaScript value arriving at the proxies' `cid`/`channel`
parameters: a string, a number, or any other (non-coercible) value. -/
inductive JsPrim where
  | pstr (s : String)
  | pnum (n : Int)
  | pbool (b : Bool)
  | pnull
  | pundef
  | pother
deriving Repr, DecidableEq

/-- `if (typeof cid === 'number') cid = cid.toString();` — the program's
client ids are integral numbers when numeric. -/
def coerceCid : JsPrim → JsPrim
  | .pnum n => .pstr (toString n)
  | x => x

/-- `QutyCluster.subscribeClient` (part_003 lines 406-411): coerce a
numeric cid, validate the channel, then the cid, then delegate. -/
def clusterSubscribeClient (h : Hub) (selfId : String) (cid channel : JsPrim) :
    Bool × Hub × List HEvent :=
  let cid1 := coerceCid cid
  match channel with
  | .pstr ch =>
    if ch = "" then (false, h, [])
    else
      match cid1 with
      | .pstr s =>
        if s = "" then (false, h, [])
        else
          let p := subscribeClient h selfId s ch
          (true, p.1, p.2)
      | _ => (false, h, [])
  | _ => (false, h, [])

/-- `QutyCluster.unsubscribeClient` (part_003 lines 422-429): an invalid
cid returns false; a missing/invalid channel removes the client from all
channels. -/
def clusterUnsubscribeClient (h : Hub) (cid channel : JsPrim) :
    Bool × Hub × List HEvent :=
  match coerceCid cid with
  | .pstr s =>
    if s = "" then (false, h, [])
    else
      match channel with
      | .pstr ch =>
        if ch = "" then
          let p := removeClient h s
          (true, p.1, p.2)
        else
          let p := unsubscribeClient h s ch
          (p.2.2, p.1, p.2.1)
      | _ =>
        let p := removeClient h s
        (true, p.1, p.2)
  | _ => (false, h, [])

/-- `QutyCluster.isClientSubscribed` (part_003 lines 438-442). -/
def clusterIsClientSubscribed (h : Hub) (cid : JsPrim) (channel : String) :
    Bool :=
  match coerceCid cid with
  | .pstr s => if s = "" then false else isClientSubscribed h s channel
  | _ => false

/-- A cid value the proxies reject: not a string after numeric coercion,
or the empty string. -/
def cidInvalid : JsPrim → Bool
  | .pstr s => s = ""
  | .pnum _ => false
  | _ => true

/-! ## Auxiliary notions for the claims -/

/-- The hub operations of the claims' alphabet other than
`unsubscribeNode`/`removeNode`. -/
inductive HOp where
  | opSubNode (sid c : String)
  | opSubClient (sid cid c : String)
  | opUnsubClient (cid c : String)
  | opRemClient (cid : String)
  | opRemChannel (c : String)
deriving Repr, DecidableEq

def applyHOp (h : Hub) : HOp → Hub
  | .opSubNode sid c => (subscribeNode h sid c).1
  | .opSubClient sid cid c => (subscribeClient h sid cid c).1
  | .opUnsubClient cid c => (unsubscribeClient h cid c).1
  | .opRemClient cid => (removeClient h cid).1
  | .opRemChannel c => (removeChannel h c).1

def runHOps (h : Hub) (l : List HOp) : Hub :=
  l.foldl applyHOp h

/-- H-ClientImpliesNode at the hub's state level: a channel with client
subscribers also has node subscribers. -/
def clientImpliesNode (h : Hub) : Prop :=
  ∀ c l, alGet h.clientChannels c = some l → l ≠ [] →
    ∃ l2, alGet h.nodeChannels c = some l2 ∧ l2 ≠ []

/-- H-ClientImpliesNode at the claim's membership level: whenever a
client id is a member of `clientChannels[c]`, the owning sid `N` is a
member of `nodeChannels[c]`.  The owner is fixed because the cluster
passes `this.id` as the sid of every `subscribeClient` call
(part_003 line 410). -/
def clientImpliesNodeMem (N : String) (h : Hub) : Prop :=
  ∀ c l cid, alGet h.clientChannels c = some l → cid ∈ l →
    ∃ l2, alGet h.nodeChannels c = some l2 ∧ N ∈ l2

/-- An op is owned by `N` when a `subscribeClient` op carries `N` as
its sid; the other ops carry no owner. -/
def hopOwnedBy (N : String) : HOp → Bool
  | .opSubClient sid _ _ => sid == N
  | _ => true

/-- What Frame-RoundTrip predicts as the decoded `data` field: the
payload itself, an empty/undefined payload decoding to the empty
string. -/
def decExpected : WireData → DecData
  | .raw s => .draw s
  | .undef => .draw []
  | .wobj fs => .dobj fs
  | .warr es => .darr es

/-- The `seq` field a decode should recover: the spliced `_q` of an
object payload, absent otherwise. -/
def seqExpected (d : WireData) (seq : Int) : Option Int :=
  match d with
  | .wobj _ => some seq
  | _ => none

/-- The payload shapes on which the round trip can hold: raw strings not
beginning with `{` or `[` (those take the JSON branch on decode), and
objects without a top-level `_q` of their own (the splice overwrites
it). -/
def payloadOk : WireData → Bool
  | .raw s => !(s.head? = some 123 || s.head? = some 91)
  | .wobj fs => !(fs.any (fun p => p.1 = kQ))
  | .warr _ => true
  | .undef => true

mutual

/-- All bytes of the value's strings and keys are bytes (< 256), as the
UTF-8 code units of JavaScript strings are. -/
def jvalBytesOk : JVal → Bool
  | .str s => s.all (fun b => b < 256)
  | .num _ => true
  | .jbool _ => true
  | .jnull => true
  | .arr es => itemsBytesOk es
  | .obj fs => fieldsBytesOk fs

def itemsBytesOk : List JVal → Bool
  | [] => true
  | e :: es => jvalBytesOk e && itemsBytesOk es

def fieldsBytesOk : List (List Nat × JVal) → Bool
  | [] => true
  | (k, v) :: fs => k.all (fun b => b < 256) && jvalBytesOk v && fieldsBytesOk fs

end

/-- Flip bit `k` of byte `i`. -/
def flipBit (l : List Nat) (i k : Nat) : List Nat :=
  l.set i ((l.getD i 0) ^^^ (2 ^ k))

/-- A channel value the subscribe proxy rejects: not a string, or empty. -/
def channelInvalid : JsPrim → Bool
  | .pstr s => s = ""
  | _ => true

mutual

/-- Parser fuel sufficient for a value (`jparse fuel` succeeds on the
value's rendering whenever `jfuelV v ≤ fuel`). -/
def jfuelV : JVal → Nat
  | .str _ => 1
  | .num _ => 1
  | .jbool _ => 1
  | .jnull => 1
  | .arr es => 1 + jfuelI es
  | .obj fs => 1 + jfuelF fs

def jfuelI : List JVal → Nat
  | [] => 0
  | e :: es => 1 + jfuelV e + jfuelI es

def jfuelF : List (List Nat × JVal) → Nat
  | [] => 0
  | (_, v) :: fs => 1 + jfuelV v + jfuelF fs

end

/-- The rest of the input may follow a rendered number without merging
into it: empty, or not starting with a digit. -/
def numStop : List Nat → Bool
  | [] => true
  | b :: _ => !isDigB b

/-- Cluster-NoSelf at the state level: the node's own id keys no entry of
`nodes` and is the stored peer id of no `nodeIps` entry. -/
def noSelf (st : CState) : Prop :=
  alGet st.nodes st.selfId = none ∧ ∀ p ∈ st.nodeIps, p.2 ≠ st.selfId

/-!
# Theorems
-/

/-! ## Association-list lemmas -/

theorem alGet_set_self {α : Type} (m : List (String × α)) (k : String) (v : α) :
    alGet (alSet m k v) k = some v := by
  induction m with
  | nil => simp [alSet, alGet]
  | cons p r ih =>
    obtain ⟨k0, v0⟩ := p
    by_cases h : k0 = k
    · simp [alSet, alGet, h]
    · simp [alSet, alGet, h, ih]

theorem alGet_set_other {α : Type} (m : List (String × α)) (k k2 : String) (v : α)
    (h : k2 ≠ k) : alGet (alSet m k v) k2 = alGet m k2 := by
  induction m with
  | nil => simp [alSet, alGet, Ne.symm h]
  | cons p r ih =>
    obtain ⟨k0, v0⟩ := p
    by_cases hk : k0 = k
    · subst hk
      simp [alSet, alGet, Ne.symm h]
    · simp [alSet, alGet, hk, ih]

theorem alGet_del_self {α : Type} (m : List (String × α)) (k : String) :
    alGet (alDel m k) k = none := by
  induction m with
  | nil => simp [alDel, alGet]
  | cons p r ih =>
    obtain ⟨k0, v0⟩ := p
    by_cases h : k0 = k
    · simpa [alDel, List.filter, alGet, h] using ih
    · simpa [alDel, List.filter, alGet, h] using ih

theorem alGet_del_other {α : Type} (m : List (String × α)) (k k2 : String)
    (h : k2 ≠ k) : alGet (alDel m k) k2 = alGet m k2 := by
  induction m with
  | nil => simp [alDel, alGet]
  | cons p r ih =>
    obtain ⟨k0, v0⟩ := p
    by_cases hk : k0 = k
    · subst hk
      simpa [alDel, List.filter, alGet, Ne.symm h] using ih
    · simp only [alDel, List.filter] at ih ⊢
      simp only [hk, decide_eq_true_eq, if_neg hk, Bool.not_false, decide_not]
      by_cases hk2 : k0 = k2
      · simp [alGet, hk2, hk]
      · simp only [alGet, hk2, if_neg hk2]
        simpa [alDel, hk] using ih

theorem alSet_self_of_get {α : Type} (m : List (String × α)) (k : String) (v : α)
    (h : alGet m k = some v) : alSet m k v = m := by
  induction m with
  | nil => simp [alGet] at h
  | cons p r ih =>
    obtain ⟨k0, v0⟩ := p
    by_cases hk : k0 = k
    · subst hk
      simp [alGet] at h
      simp [alSet, h]
    · simp [alGet, hk] at h
      simp [alSet, hk, ih h]

theorem alSet_set_self {α : Type} (m : List (String × α)) (k : String) (v w : α) :
    alSet (alSet m k v) k w = alSet m k w := by
  induction m with
  | nil => simp [alSet]
  | cons p r ih =>
    obtain ⟨k0, v0⟩ := p
    by_cases hk : k0 = k
    · simp [alSet, hk]
    · simp [alSet, hk, ih]

/-! ## C8: the publish boolean -/

theorem sendMessage_events (h : Hub) (c m : String) (senderSid : Option String)
    (ignoreNodes : Bool) :
    (sendMessage h c m senderSid ignoreNodes).1 = false ↔
      alGet h.nodeChannels c = none ∧ alGet h.clientChannels c = none := by
  unfold sendMessage
  cases hn : alGet h.nodeChannels c <;>
    cases hc : alGet h.clientChannels c <;>
      simp [hn, hc]

/-! ## C10 helper facts -/

theorem coerce_num (n : Int) : coerceCid (.pnum n) = .pstr (toString n) := rfl

/-! ## The cluster state lemmas for C3 -/

theorem addNode_self_no_insert (st : CState) (h : Hub) (configPort : Int)
    (a : Addr) (cs : Option (List String)) :
    (addNode st h configPort a (.connected st.selfId cs)).1.nodes = st.nodes ∧
    (addNode st h configPort a (.connected st.selfId cs)).1.nodeIps = st.nodeIps := by
  unfold addNode
  cases hp : parseAddress configPort a with
  | none => simp
  | some t =>
    obtain ⟨proto, ip, port⟩ := t
    simp only
    cases hg : alGet st.nodeIps (ip ++ ":" ++ toString port) with
    | some _ => simp
    | none =>
      by_cases hpend : (ip ++ ":" ++ toString port) ∈ st.pending
      · simp [hpend]
      · simp [hpend]

theorem handleClusterClient_inserts (st : CState) (h : Hub) (sid ip : String)
    (p : Int) (hip : ip ≠ "") (hp : p ≠ 0)
    (hfresh : alGet st.nodeIps (ip ++ ":" ++ toString p) = none) :
    alGet (handleClusterClient st h sid ip (some p)).1.nodes sid
      = some (ip ++ ":" ++ toString p) ∧
    alGet (handleClusterClient st h sid ip (some p)).1.nodeIps
        (ip ++ ":" ++ toString p) = some sid := by
  unfold handleClusterClient
  simp [hip, hp, hfresh, alGet_set_self]

theorem broadcastTargets_excludeSelf (st : CState) :
    st.selfId ∉ broadcastTargets st true := by
  unfold broadcastTargets
  intro hmem
  simp only [List.mem_filter] at hmem
  simp at hmem

/-! ## C9: the readiness state machine -/

theorem rstep_declare (s : RState) (st : RStep) (hd : isDeclare st = true) :
    rstep s st = setClusterReady s := by
  cases st with
  | declareNoPeers => rfl
  | declareTimeout => rfl
  | declarePeer => rfl
  | recvNodeState =>
    unfold rstep setClusterReady
    by_cases h : s.clusterReady <;> simp [h]
  | recvOther e => simp [isDeclare] at hd

theorem runRSteps_characterize (tr : List RStep) :
    ∀ s : RState, s.ready = s.clusterReady →
    (runRSteps s tr).ready = (s.ready || tr.any isDeclare) ∧
    (runRSteps s tr).clusterReady = (s.ready || tr.any isDeclare) ∧
    (runRSteps s tr).readyEmits =
      s.readyEmits + (if !s.ready && tr.any isDeclare then 1 else 0) ∧
    (runRSteps s tr).pendingEvents =
      (if s.ready then s.pendingEvents
       else if tr.any isDeclare then []
       else s.pendingEvents ++ tr.filterMap recvOtherId) ∧
    (runRSteps s tr).flushed =
      (if s.ready then s.flushed
       else if tr.any isDeclare then
         s.flushed ++ s.pendingEvents
           ++ (tr.takeWhile (fun st => !isDeclare st)).filterMap recvOtherId
       else s.flushed) := by
  induction tr with
  | nil => intro s hrc; simp [runRSteps, hrc]
  | cons st rest ih =>
    intro s hrc
    have hrun : runRSteps s (st :: rest) = runRSteps (rstep s st) rest := by
      simp [runRSteps]
    by_cases hd : isDeclare st = true
    · rw [hrun, rstep_declare s st hd]
      by_cases hr : s.ready = true
      · have hset : setClusterReady s = s := by
          unfold setClusterReady
          simp [hr]
        rw [hset]
        obtain ⟨h1, h2, h3, h4, h5⟩ := ih s hrc
        refine ⟨?_, ?_, ?_, ?_, ?_⟩
        · rw [h1]; simp [hr]
        · rw [h2]; simp [hr]
        · rw [h3]; simp [hr]
        · rw [h4]; simp [hr]
        · rw [h5]; simp [hr]
      · have hrf : s.ready = false := by simpa using hr
        have hcf : s.clusterReady = false := by rw [← hrc]; exact hrf
        have hset : setClusterReady s =
            { ready := true, clusterReady := true, pendingEvents := [],
              flushed := s.flushed ++ s.pendingEvents,
              readyEmits := s.readyEmits + 1 } := by
          unfold setClusterReady
          simp [hrf, hcf]
        rw [hset]
        obtain ⟨h1, h2, h3, h4, h5⟩ :=
          ih { ready := true, clusterReady := true, pendingEvents := [],
               flushed := s.flushed ++ s.pendingEvents,
               readyEmits := s.readyEmits + 1 } rfl
        refine ⟨?_, ?_, ?_, ?_, ?_⟩
        · rw [h1]; simp [hrf, List.any_cons, hd]
        · rw [h2]; simp [hrf, List.any_cons, hd]
        · rw [h3]; simp [hrf, List.any_cons, hd]
        · rw [h4]; simp [hrf, List.any_cons, hd]
        · rw [h5]; simp [hrf, List.any_cons, hd, List.takeWhile_cons, hd]
    · have hstep : ∃ e, st = RStep.recvOther e := by
        cases st <;> simp_all [isDeclare]
      obtain ⟨e, rfl⟩ := hstep
      have hdf : isDeclare (RStep.recvOther e) = false := rfl
      by_cases hc : s.clusterReady = true
      · have hr : s.ready = true := by rw [hrc]; exact hc
        have hst : rstep s (RStep.recvOther e) = s := by
          unfold rstep; simp [hc]
        rw [hrun, hst]
        obtain ⟨h1, h2, h3, h4, h5⟩ := ih s hrc
        refine ⟨?_, ?_, ?_, ?_, ?_⟩
        · rw [h1]; simp [hr]
        · rw [h2]; simp [hr]
        · rw [h3]; simp [hr]
        · rw [h4]; simp [hr]
        · rw [h5]; simp [hr]
      · have hcf : s.clusterReady = false := by simpa using hc
        have hrf : s.ready = false := by rw [hrc]; exact hcf
        have hst : rstep s (RStep.recvOther e) =
            { s with pendingEvents := s.pendingEvents ++ [e] } := by
          unfold rstep; simp [hcf]
        rw [hrun, hst]
        obtain ⟨h1, h2, h3, h4, h5⟩ :=
          ih { s with pendingEvents := s.pendingEvents ++ [e] } hrc
        refine ⟨?_, ?_, ?_, ?_, ?_⟩
        · rw [h1]; simp [hrf, List.any_cons, hdf]
        · rw [h2]; simp [hrf, List.any_cons, hdf]
        · rw [h3]; simp [hrf, List.any_cons, hdf]
        · rw [h4]
          by_cases han : rest.any isDeclare = true
          · simp [hrf, List.any_cons, hdf, han]
          · simp [hrf, List.any_cons, hdf, han, recvOtherId, List.filterMap_cons]
        · rw [h5]
          by_cases han : rest.any isDeclare = true
          · simp [hrf, List.any_cons, hdf, han, List.takeWhile_cons, recvOtherId,
                  List.filterMap_cons]
          · simp [hrf, List.any_cons, hdf, han]

/-! ## C4: unsubscribeNode -/

theorem unsubscribeNode_characterize (h : Hub) (sid c : String)
    (hnd : ∀ l, alGet h.nodeChannels c = some l → l.Nodup) :
    ((unsubscribeNode (unsubscribeNode h sid c).1 sid c).1 = (unsubscribeNode h sid c).1) ∧
    ((unsubscribeNode (unsubscribeNode h sid c).1 sid c).2 = []) ∧
    (HEvent.nodeLeave c sid ∈ (unsubscribeNode h sid c).2 ↔
       ∃ l, alGet h.nodeChannels c = some l ∧ sid ∈ l) ∧
    (HEvent.channelRemove c ∈ (unsubscribeNode h sid c).2 ↔
       ∃ l, alGet h.nodeChannels c = some l ∧ l.erase sid = []) := by
  cases hg : alGet h.nodeChannels c with
  | none =>
    unfold unsubscribeNode
    simp [hg]
  | some l =>
    have hl : l.Nodup := hnd l hg
    by_cases hm : sid ∈ l
    · by_cases he : l.erase sid = []
      · have h1 : unsubscribeNode h sid c =
            ({ h with nodeChannels := alDel h.nodeChannels c },
             [HEvent.nodeLeave c sid, HEvent.channelRemove c]) := by
          unfold unsubscribeNode
          simp [hg, hm, he]
        rw [h1]
        have h2 : unsubscribeNode { h with nodeChannels := alDel h.nodeChannels c } sid c
            = ({ h with nodeChannels := alDel h.nodeChannels c }, []) := by
          unfold unsubscribeNode
          simp [alGet_del_self]
        rw [h2]
        refine ⟨rfl, rfl, ?_, ?_⟩
        · constructor
          · intro _; exact ⟨l, rfl, hm⟩
          · intro _; simp
        · constructor
          · intro _; exact ⟨l, rfl, he⟩
          · intro _; simp
      · have h1 : unsubscribeNode h sid c =
            ({ h with nodeChannels := alSet h.nodeChannels c (l.erase sid) },
             [HEvent.nodeLeave c sid]) := by
          unfold unsubscribeNode
          simp [hg, hm, he]
        rw [h1]
        have hnm : sid ∉ l.erase sid := fun hmem => by
          rcases (List.Nodup.mem_erase_iff hl).mp hmem with ⟨hne, _⟩
          exact hne rfl
        have h2 : unsubscribeNode
              { h with nodeChannels := alSet h.nodeChannels c (l.erase sid) } sid c
            = ({ h with nodeChannels := alSet h.nodeChannels c (l.erase sid) }, []) := by
          unfold unsubscribeNode
          have hget : alGet (alSet h.nodeChannels c (l.erase sid)) c = some (l.erase sid) :=
            alGet_set_self _ _ _
          simp only [hget, hnm, if_neg he, if_false]
          simp [hnm, he, alSet_set_self]
        rw [h2]
        refine ⟨rfl, rfl, ?_, ?_⟩
        · constructor
          · intro _; exact ⟨l, rfl, hm⟩
          · intro _; simp
        · constructor
          · intro hmem; simp at hmem
          · rintro ⟨l2, hg2, he2⟩
            cases hg2
            exact absurd he2 he
    · by_cases he : l = []
      · subst he
        have h1 : unsubscribeNode h sid c =
            ({ h with nodeChannels := alDel h.nodeChannels c },
             [HEvent.channelRemove c]) := by
          unfold unsubscribeNode
          simp [hg, hm]
        rw [h1]
        have h2 : unsubscribeNode { h with nodeChannels := alDel h.nodeChannels c } sid c
            = ({ h with nodeChannels := alDel h.nodeChannels c }, []) := by
          unfold unsubscribeNode
          simp [alGet_del_self]
        rw [h2]
        refine ⟨rfl, rfl, ?_, ?_⟩
        · constructor
          · intro hmem; simp at hmem
          · rintro ⟨l2, hg2, hm2⟩
            cases hg2
            exact absurd hm2 hm
        · constructor
          · intro _
            exact ⟨[], rfl, by simp⟩
          · intro _; simp
      · have h1 : unsubscribeNode h sid c = (h, []) := by
          unfold unsubscribeNode
          have hkeep : alSet h.nodeChannels c l = h.nodeChannels :=
            alSet_self_of_get _ _ _ hg
          simp only [hg, hm, if_neg he]
          simp [hm, he, hkeep]
        rw [h1]
        rw [h1]
        have herase : l.erase sid = l := List.erase_of_not_mem hm
        refine ⟨rfl, rfl, ?_, ?_⟩
        · constructor
          · intro hmem; simp at hmem
          · rintro ⟨l2, hg2, hm2⟩
            cases hg2
            exact absurd hm2 hm
        · constructor
          · intro hmem; simp at hmem
          · rintro ⟨l2, hg2, he2⟩
            cases hg2
            rw [herase] at he2
            exact absurd he2 he

/-! ## C2: effect lemmas for the hub operations -/

theorem unsubscribeNode_clientChannels (h : Hub) (sid c : String) :
    (unsubscribeNode h sid c).1.clientChannels = h.clientChannels := by
  unfold unsubscribeNode
  cases alGet h.nodeChannels c with
  | none => rfl
  | some l =>
    simp only
    split <;> split <;> rfl

theorem unsubscribeNode_nodes_other (h : Hub) (sid c c2 : String) (hne : c2 ≠ c) :
    alGet (unsubscribeNode h sid c).1.nodeChannels c2 = alGet h.nodeChannels c2 := by
  unfold unsubscribeNode
  cases alGet h.nodeChannels c with
  | none => rfl
  | some l =>
    simp only
    split <;> split
    · exact alGet_del_other _ _ _ hne
    · exact alGet_set_other _ _ _ _ hne
    · exact alGet_del_other _ _ _ hne
    · exact alGet_set_other _ _ _ _ hne

theorem subscribeNode_clientChannels (h : Hub) (sid c : String) :
    (subscribeNode h sid c).1.clientChannels = h.clientChannels := by
  unfold subscribeNode
  cases hg : alGet h.nodeChannels c with
  | none =>
    simp only [alGet_set_self]
    split <;> rfl
  | some l =>
    simp only [hg]
    split <;> rfl

theorem subscribeNode_nodes_other (h : Hub) (sid c c2 : String) (hne : c2 ≠ c) :
    alGet (subscribeNode h sid c).1.nodeChannels c2 = alGet h.nodeChannels c2 := by
  unfold subscribeNode
  cases hg : alGet h.nodeChannels c with
  | none =>
    simp only [alGet_set_self]
    split
    · exact alGet_set_other _ _ _ _ hne
    · rw [alGet_set_other _ _ _ _ hne, alGet_set_other _ _ _ _ hne]
  | some l =>
    simp only [hg]
    split
    · rfl
    · exact alGet_set_other _ _ _ _ hne

theorem subscribeNode_node_self (h : Hub) (sid c : String) :
    ∃ l, alGet (subscribeNode h sid c).1.nodeChannels c = some l ∧ l ≠ [] := by
  unfold subscribeNode
  cases hg : alGet h.nodeChannels c with
  | none =>
    simp only [alGet_set_self]
    split
    · rename_i hmem
      simp at hmem
    · exact ⟨[] ++ [sid], alGet_set_self _ _ _, by simp⟩
  | some l =>
    simp only [hg]
    split
    · rename_i hmem
      exact ⟨l, hg, List.ne_nil_of_mem hmem⟩
    · exact ⟨l ++ [sid], alGet_set_self _ _ _, by simp⟩

theorem subscribeClient_nodeChannels (h : Hub) (sid cid c : String) :
    (subscribeClient h sid cid c).1.nodeChannels
      = (subscribeNode h sid c).1.nodeChannels := by
  unfold subscribeClient
  dsimp only
  repeat' split
  all_goals rfl

theorem subscribeClient_client_other (h : Hub) (sid cid c c2 : String)
    (hne : c2 ≠ c) :
    alGet (subscribeClient h sid cid c).1.clientChannels c2
      = alGet h.clientChannels c2 := by
  have hsub := subscribeNode_clientChannels h sid c
  unfold subscribeClient
  dsimp only
  repeat' split
  all_goals simp [alGet_set_other, hne, hsub]

theorem nodesLoop_clientChannels (fuel : Nat) :
    ∀ (h : Hub) (c : String),
      (nodesLoop fuel h c).1.clientChannels = h.clientChannels := by
  induction fuel with
  | zero => intro h c; rfl
  | succ n ih =>
    intro h c
    unfold nodesLoop
    cases hg : alGet h.nodeChannels c with
    | none => simp only [hg]
    | some l =>
      simp only [hg]
      cases hl : l.getLast? with
      | none => simp only [hl]
      | some sid =>
        simp only [hl]
        rw [ih, unsubscribeNode_clientChannels]

theorem nodesLoop_nodes_other (fuel : Nat) :
    ∀ (h : Hub) (c c2 : String), c2 ≠ c →
      alGet (nodesLoop fuel h c).1.nodeChannels c2 = alGet h.nodeChannels c2 := by
  induction fuel with
  | zero => intro h c c2 _; rfl
  | succ n ih =>
    intro h c c2 hne
    unfold nodesLoop
    cases hg : alGet h.nodeChannels c with
    | none => simp only [hg]
    | some l =>
      simp only [hg]
      cases hl : l.getLast? with
      | none => simp only [hl]
      | some sid =>
        simp only [hl]
        rw [ih _ _ _ hne, unsubscribeNode_nodes_other _ _ _ _ hne]

theorem mem_of_getLast?_eq_some {α : Type} {l : List α} {a : α}
    (h : l.getLast? = some a) : a ∈ l := by
  obtain ⟨hne, rfl⟩ := List.mem_getLast?_eq_getLast (Option.mem_def.mpr h)
  exact List.getLast_mem hne

/-- The re-entrant `removeChannel` call from `unsubscribeClient` always
sees the channel's client entry deleted, so its client phase is empty at
every depth. -/
theorem removeChannelAux_noclient (d : Nat) (h : Hub) (c : String)
    (hc : alGet h.clientChannels c = none) :
    (removeChannelAux d h c).1.clientChannels = h.clientChannels ∧
    (∀ c2, c2 ≠ c →
      alGet (removeChannelAux d h c).1.nodeChannels c2 = alGet h.nodeChannels c2) := by
  unfold removeChannelAux
  cases hn : alGet h.nodeChannels c with
  | none =>
    simp only [hc]
    refine ⟨?_, ?_⟩
    · first | rfl | trivial
    · intro c2 _
      first | rfl | trivial
  | some l =>
    have hcl := nodesLoop_clientChannels (l.length + 1) h c
    simp only [hcl, hc]
    refine ⟨?_, ?_⟩
    · first | rfl | trivial | exact hcl
    · intro c2 hne
      exact nodesLoop_nodes_other _ _ _ _ hne

theorem unsubscribeClientAux_spec (d : Nat) (h : Hub) (cid c : String) :
    (∀ c2, c2 ≠ c →
      alGet (unsubscribeClientAux d h cid c).1.clientChannels c2
        = alGet h.clientChannels c2) ∧
    (∀ c2, c2 ≠ c →
      alGet (unsubscribeClientAux d h cid c).1.nodeChannels c2
        = alGet h.nodeChannels c2) ∧
    (((unsubscribeClientAux d h cid c).1 = h ∧
        (∀ l, alGet h.clientChannels c = some l → cid ∉ l)) ∨
     (∃ l, alGet h.clientChannels c = some l ∧ cid ∈ l ∧
       ((alGet (unsubscribeClientAux d h cid c).1.clientChannels c
            = some (l.erase cid) ∧ l.erase cid ≠ [] ∧
          (unsubscribeClientAux d h cid c).1.nodeChannels = h.nodeChannels) ∨
        alGet (unsubscribeClientAux d h cid c).1.clientChannels c = none))) := by
  unfold unsubscribeClientAux
  cases hg : alGet h.clientChannels c with
  | none =>
    refine ⟨fun c2 _ => rfl, fun c2 _ => rfl, Or.inl ⟨rfl, ?_⟩⟩
    intro l hl
    simp [hg] at hl
  | some l =>
    simp only
    by_cases hm : cid ∈ l
    · simp only [hm, if_true]
      by_cases he : l.erase cid = []
      · simp only [he, if_true]
        cases d with
        | zero =>
          refine ⟨fun c2 hne => alGet_del_other _ _ _ hne,
                  fun c2 _ => rfl,
                  Or.inr ⟨l, rfl, hm, Or.inr (alGet_del_self _ _)⟩⟩
        | succ d1 =>
          simp only
          have hdel : alGet (alDel h.clientChannels c) c = none := alGet_del_self _ _
          obtain ⟨hrc1, hrc2⟩ :=
            removeChannelAux_noclient d1
              { h with clientChannels := alDel h.clientChannels c } c hdel
          refine ⟨?_, ?_, Or.inr ⟨l, rfl, hm, Or.inr ?_⟩⟩
          · intro c2 hne
            rw [hrc1]
            exact alGet_del_other _ _ _ hne
          · intro c2 hne
            exact hrc2 c2 hne
          · rw [hrc1]
            exact hdel
      · simp only [he, if_false]
        refine ⟨?_, ?_, Or.inr ⟨l, rfl, hm, Or.inl ⟨?_, ?_, ?_⟩⟩⟩
        · intro c2 hne
          exact alGet_set_other _ _ _ _ hne
        · intro c2 _
          first | rfl | trivial
        · exact alGet_set_self _ _ _
        · first | exact he | trivial
        · first | rfl | trivial
    · simp only [hm, if_false]
      refine ⟨?_, ?_, Or.inl ⟨?_, ?_⟩⟩
      · intro c2 _
        first | rfl | trivial
      · intro c2 _
        first | rfl | trivial
      · first | rfl | trivial
      · intro l2 hl2
        cases hl2
        exact hm

theorem clientsLoop_spec (d : Nat) (iter : Nat) :
    ∀ (h : Hub) (c : String),
    (∀ c2, c2 ≠ c →
      alGet (clientsLoop d iter h c).1.clientChannels c2
        = alGet h.clientChannels c2) ∧
    (∀ c2, c2 ≠ c →
      alGet (clientsLoop d iter h c).1.nodeChannels c2
        = alGet h.nodeChannels c2) ∧
    (∀ l, alGet h.clientChannels c = some l → l.length < iter →
      ∀ l2, alGet (clientsLoop d iter h c).1.clientChannels c = some l2 → l2 = []) ∧
    (alGet h.clientChannels c = none → clientsLoop d iter h c = (h, [])) := by
  induction iter with
  | zero =>
    intro h c
    have h0 : clientsLoop d 0 h c = (h, []) := by
      simp [clientsLoop]
    refine ⟨?_, ?_, ?_, ?_⟩
    · intro c2 _
      rw [h0]
    · intro c2 _
      rw [h0]
    · intro l hl hlt
      omega
    · intro _
      rw [h0]
  | succ n ih =>
    intro h c
    unfold clientsLoop
    cases hg : alGet h.clientChannels c with
    | none =>
      refine ⟨?_, ?_, ?_, ?_⟩
      · intro c2 _
        first | rfl | trivial
      · intro c2 _
        first | rfl | trivial
      · intro l hl
        simp [hg] at hl
      · intro _
        first | rfl | trivial
    | some l =>
      cases hlast : l.getLast? with
      | none =>
        simp only [hlast]
        have hnil : l = [] := by
          cases l with
          | nil => rfl
          | cons x xs => simp [List.getLast?_eq_getLast] at hlast
        refine ⟨?_, ?_, ?_, ?_⟩
        · intro c2 _
          first | rfl | trivial
        · intro c2 _
          first | rfl | trivial
        · intro l0 hl0 _ l2 hl2
          cases hl0
          rw [hg] at hl2
          cases hl2
          exact hnil
        · intro hnone
          cases hnone
      | some cid =>
        simp only [hlast]
        have hmem : cid ∈ l := mem_of_getLast?_eq_some hlast
        obtain ⟨huc1, huc2, huc3⟩ := unsubscribeClientAux_spec d h cid c
        obtain ⟨hcl1, hcl2, hcl3, hcl4⟩ := ih (unsubscribeClientAux d h cid c).1 c
        refine ⟨?_, ?_, ?_, ?_⟩
        · intro c2 hne
          rw [hcl1 c2 hne, huc1 c2 hne]
        · intro c2 hne
          rw [hcl2 c2 hne, huc2 c2 hne]
        · intro l0 hl0 hlt l2 hl2
          cases hl0
          rcases huc3 with ⟨_, hnomem⟩ | ⟨l3, hl3, hmem3, hcases⟩
          · exact absurd hmem (hnomem l hg)
          · rw [hg] at hl3
            cases hl3
            rcases hcases with ⟨hset, _, _⟩ | hnone2
            · have hpos : 0 < l.length := List.length_pos.mpr (List.ne_nil_of_mem hmem)
              have hlen : (l.erase cid).length < n := by
                rw [List.length_erase_of_mem hmem]
                omega
              exact hcl3 (l.erase cid) hset hlen l2 hl2
            · rw [hcl4 hnone2] at hl2
              simp only at hl2
              rw [hnone2] at hl2
              cases hl2
        · intro hnone
          cases hnone

theorem removeChannelAux_spec (d : Nat) (h : Hub) (c : String) :
    (∀ c2, c2 ≠ c →
      alGet (removeChannelAux d h c).1.clientChannels c2
        = alGet h.clientChannels c2) ∧
    (∀ c2, c2 ≠ c →
      alGet (removeChannelAux d h c).1.nodeChannels c2
        = alGet h.nodeChannels c2) ∧
    (∀ l, alGet (removeChannelAux d h c).1.clientChannels c = some l → l = []) := by
  unfold removeChannelAux
  cases hn : alGet h.nodeChannels c with
  | none =>
    simp only
    cases hc : alGet h.clientChannels c with
    | none =>
      exact ⟨fun c2 _ => rfl, fun c2 _ => rfl,
             fun l hl => by simp [hc] at hl⟩
    | some l =>
      obtain ⟨hcl1, hcl2, hcl3, _⟩ := clientsLoop_spec d (l.length + 1) h c
      exact ⟨hcl1, hcl2, fun l2 hl2 => hcl3 l hc (by omega) l2 hl2⟩
  | some l =>
    simp only
    have hclpres := nodesLoop_clientChannels (l.length + 1) h c
    cases hc : alGet (nodesLoop (l.length + 1) h c).1.clientChannels c with
    | none =>
      refine ⟨?_, ?_, fun l2 hl2 => by rw [hc] at hl2; cases hl2⟩
      · intro c2 hne
        rw [hclpres]
      · intro c2 hne
        exact nodesLoop_nodes_other _ _ _ _ hne
    | some l0 =>
      obtain ⟨hcl1, hcl2, hcl3, _⟩ :=
        clientsLoop_spec d (l0.length + 1) (nodesLoop (l.length + 1) h c).1 c
      refine ⟨?_, ?_, fun l2 hl2 => hcl3 l0 hc (by omega) l2 hl2⟩
      · intro c2 hne
        rw [hcl1 c2 hne, hclpres]
      · intro c2 hne
        rw [hcl2 c2 hne]
        exact nodesLoop_nodes_other _ _ _ _ hne

/-! ## C2: the invariant and its preservation -/

theorem inv_subscribeNode (h : Hub) (sid c : String)
    (hinv : clientImpliesNode h) : clientImpliesNode (subscribeNode h sid c).1 := by
  intro c0 l hget hne
  rw [subscribeNode_clientChannels] at hget
  by_cases hc0 : c0 = c
  · subst hc0
    exact subscribeNode_node_self h sid c0
  · rw [subscribeNode_nodes_other _ _ _ _ hc0]
    exact hinv c0 l hget hne

theorem inv_subscribeClient (h : Hub) (sid cid c : String)
    (hinv : clientImpliesNode h) : clientImpliesNode (subscribeClient h sid cid c).1 := by
  intro c0 l hget hne
  by_cases hc0 : c0 = c
  · subst hc0
    rw [subscribeClient_nodeChannels]
    exact subscribeNode_node_self h sid c0
  · rw [subscribeClient_client_other _ _ _ _ _ hc0] at hget
    rw [subscribeClient_nodeChannels, subscribeNode_nodes_other _ _ _ _ hc0]
    exact hinv c0 l hget hne

theorem inv_unsubscribeClientAux (d : Nat) (h : Hub) (cid c : String)
    (hinv : clientImpliesNode h) :
    clientImpliesNode (unsubscribeClientAux d h cid c).1 := by
  obtain ⟨h1, h2, h3⟩ := unsubscribeClientAux_spec d h cid c
  intro c0 l hget hne
  by_cases hc0 : c0 = c
  · subst hc0
    rcases h3 with ⟨heq, _⟩ | ⟨l3, hl3, _, hcases⟩
    · rw [heq] at hget ⊢
      exact hinv c0 l hget hne
    · rcases hcases with ⟨hset, _, hnodes⟩ | hnone
      · rw [hget] at hset
        cases hset
        rw [hnodes]
        exact hinv c0 l3 hl3 (List.ne_nil_of_mem (by assumption))
      · rw [hget] at hnone
        cases hnone
  · rw [h1 c0 hc0] at hget
    rw [h2 c0 hc0]
    exact hinv c0 l hget hne

theorem inv_removeChannelAux (d : Nat) (h : Hub) (c : String)
    (hinv : clientImpliesNode h) :
    clientImpliesNode (removeChannelAux d h c).1 := by
  obtain ⟨h1, h2, h3⟩ := removeChannelAux_spec d h c
  intro c0 l hget hne
  by_cases hc0 : c0 = c
  · subst hc0
    exact absurd (h3 l hget) hne
  · rw [h1 c0 hc0] at hget
    rw [h2 c0 hc0]
    exact hinv c0 l hget hne

theorem inv_removeClient (h : Hub) (cid : String)
    (hinv : clientImpliesNode h) : clientImpliesNode (removeClient h cid).1 := by
  unfold removeClient
  have main : ∀ (keys : List String) (h0 : Hub) (acc : List HEvent),
      clientImpliesNode h0 →
      clientImpliesNode
        (keys.foldl
          (fun acc c =>
            let p := unsubscribeClientAux 2 acc.1 cid c
            (p.1, acc.2 ++ p.2.1))
          (h0, acc)).1 := by
    intro keys
    induction keys with
    | nil => intro h0 acc hi; exact hi
    | cons k rest ih =>
      intro h0 acc hi
      exact ih _ _ (inv_unsubscribeClientAux 2 h0 cid k hi)
  exact main _ h [] hinv

theorem inv_applyHOp (h : Hub) (op : HOp)
    (hinv : clientImpliesNode h) : clientImpliesNode (applyHOp h op) := by
  cases op with
  | opSubNode sid c => exact inv_subscribeNode h sid c hinv
  | opSubClient sid cid c => exact inv_subscribeClient h sid cid c hinv
  | opUnsubClient cid c => exact inv_unsubscribeClientAux 2 h cid c hinv
  | opRemClient cid => exact inv_removeClient h cid hinv
  | opRemChannel c => exact inv_removeChannelAux 2 h c hinv

theorem inv_runHOps (ops : List HOp) :
    ∀ h : Hub, clientImpliesNode h → clientImpliesNode (runHOps h ops) := by
  induction ops with
  | nil => intro h hi; exact hi
  | cons op rest ih =>
    intro h hi
    exact ih _ (inv_applyHOp h op hi)

/-- `subscribeNode` only ever appends to an existing node list: every
previous member is still a member afterwards. -/
theorem subscribeNode_node_mono (h : Hub) (sid c : String) (l : List String)
    (hl : alGet h.nodeChannels c = some l) :
    ∃ l2, alGet (subscribeNode h sid c).1.nodeChannels c = some l2 ∧
      ∀ x, x ∈ l → x ∈ l2 := by
  unfold subscribeNode
  simp only [hl]
  split
  · exact ⟨l, hl, fun x hx => hx⟩
  · exact ⟨l ++ [sid], alGet_set_self _ _ _, fun x hx => List.mem_append_left _ hx⟩

/-- After `subscribeNode h sid c` the sid is a member of the channel's
node list (logger.js lines 103-113: the entry is auto-created and the
sid pushed when absent). -/
theorem subscribeNode_node_self_mem (h : Hub) (sid c : String) :
    ∃ l, alGet (subscribeNode h sid c).1.nodeChannels c = some l ∧ sid ∈ l := by
  unfold subscribeNode
  cases hg : alGet h.nodeChannels c with
  | none =>
    simp only [alGet_set_self]
    split
    · rename_i hmem
      simp at hmem
    · exact ⟨[] ++ [sid], alGet_set_self _ _ _, by simp⟩
  | some l =>
    simp only [hg]
    split
    · rename_i hmem
      exact ⟨l, hg, hmem⟩
    · exact ⟨l ++ [sid], alGet_set_self _ _ _, by simp⟩

theorem inv_mem_subscribeNode (N : String) (h : Hub) (sid c : String)
    (hinv : clientImpliesNodeMem N h) :
    clientImpliesNodeMem N (subscribeNode h sid c).1 := by
  intro c0 l cid hget hmem
  rw [subscribeNode_clientChannels] at hget
  obtain ⟨l2, hl2, hN⟩ := hinv c0 l cid hget hmem
  by_cases hc0 : c0 = c
  · subst hc0
    obtain ⟨l3, hl3, hsub⟩ := subscribeNode_node_mono h sid c0 l2 hl2
    exact ⟨l3, hl3, hsub N hN⟩
  · rw [subscribeNode_nodes_other _ _ _ _ hc0]
    exact ⟨l2, hl2, hN⟩

theorem inv_mem_subscribeClient (N : String) (h : Hub) (cid0 c : String)
    (hinv : clientImpliesNodeMem N h) :
    clientImpliesNodeMem N (subscribeClient h N cid0 c).1 := by
  intro c0 l cid hget hmem
  by_cases hc0 : c0 = c
  · subst hc0
    rw [subscribeClient_nodeChannels]
    exact subscribeNode_node_self_mem h N c0
  · rw [subscribeClient_client_other _ _ _ _ _ hc0] at hget
    rw [subscribeClient_nodeChannels, subscribeNode_nodes_other _ _ _ _ hc0]
    exact hinv c0 l cid hget hmem

theorem inv_mem_unsubscribeClientAux (N : String) (d : Nat) (h : Hub)
    (cid0 c : String) (hinv : clientImpliesNodeMem N h) :
    clientImpliesNodeMem N (unsubscribeClientAux d h cid0 c).1 := by
  obtain ⟨h1, h2, h3⟩ := unsubscribeClientAux_spec d h cid0 c
  intro c0 l cid hget hmem
  by_cases hc0 : c0 = c
  · subst hc0
    rcases h3 with ⟨heq, _⟩ | ⟨l3, hl3, hmem3, hcases⟩
    · rw [heq] at hget ⊢
      exact hinv c0 l cid hget hmem
    · rcases hcases with ⟨hset, _, hnodes⟩ | hnone
      · rw [hget] at hset
        cases hset
        rw [hnodes]
        exact hinv c0 l3 cid hl3 (List.mem_of_mem_erase hmem)
      · rw [hget] at hnone
        cases hnone
  · rw [h1 c0 hc0] at hget
    rw [h2 c0 hc0]
    exact hinv c0 l cid hget hmem

theorem inv_mem_removeChannelAux (N : String) (d : Nat) (h : Hub) (c : String)
    (hinv : clientImpliesNodeMem N h) :
    clientImpliesNodeMem N (removeChannelAux d h c).1 := by
  obtain ⟨h1, h2, h3⟩ := removeChannelAux_spec d h c
  intro c0 l cid hget hmem
  by_cases hc0 : c0 = c
  · subst hc0
    rw [h3 l hget] at hmem
    simp at hmem
  · rw [h1 c0 hc0] at hget
    rw [h2 c0 hc0]
    exact hinv c0 l cid hget hmem

theorem inv_mem_removeClient (N : String) (h : Hub) (cid0 : String)
    (hinv : clientImpliesNodeMem N h) :
    clientImpliesNodeMem N (removeClient h cid0).1 := by
  unfold removeClient
  have main : ∀ (keys : List String) (h0 : Hub) (acc : List HEvent),
      clientImpliesNodeMem N h0 →
      clientImpliesNodeMem N
        (keys.foldl
          (fun acc c =>
            let p := unsubscribeClientAux 2 acc.1 cid0 c
            (p.1, acc.2 ++ p.2.1))
          (h0, acc)).1 := by
    intro keys
    induction keys with
    | nil => intro h0 acc hi; exact hi
    | cons k rest ih =>
      intro h0 acc hi
      exact ih _ _ (inv_mem_unsubscribeClientAux N 2 h0 cid0 k hi)
  exact main _ h [] hinv

theorem inv_mem_applyHOp (N : String) (h : Hub) (op : HOp)
    (hop : hopOwnedBy N op = true)
    (hinv : clientImpliesNodeMem N h) :
    clientImpliesNodeMem N (applyHOp h op) := by
  cases op with
  | opSubNode sid c => exact inv_mem_subscribeNode N h sid c hinv
  | opSubClient sid cid c =>
    have hsid : sid = N := by
      simpa [hopOwnedBy] using hop
    subst hsid
    exact inv_mem_subscribeClient sid h cid c hinv
  | opUnsubClient cid c => exact inv_mem_unsubscribeClientAux N 2 h cid c hinv
  | opRemClient cid => exact inv_mem_removeClient N h cid hinv
  | opRemChannel c => exact inv_mem_removeChannelAux N 2 h c hinv

theorem inv_mem_runHOps (N : String) :
    ∀ (ops : List HOp), ops.all (hopOwnedBy N) = true →
      ∀ h : Hub, clientImpliesNodeMem N h →
        clientImpliesNodeMem N (runHOps h ops) := by
  intro ops
  induction ops with
  | nil => intro _ h hi; exact hi
  | cons op rest ih =>
    intro hown h hi
    simp only [List.all_cons, Bool.and_eq_true] at hown
    exact ih hown.2 _ (inv_mem_applyHOp N h op hown.1 hi)

/-! ## Decimal digit rendering -/

theorem natDigsAux_mem : ∀ (fuel n b : Nat), b ∈ natDigsAux n fuel →
    48 ≤ b ∧ b ≤ 57 := by
  intro fuel
  induction fuel with
  | zero => intro n b hb; simp [natDigsAux] at hb
  | succ f ih =>
    intro n b hb
    by_cases hn : n = 0
    · simp [natDigsAux, hn] at hb
    · simp only [natDigsAux, hn, ite_false] at hb
      rcases List.mem_append.mp hb with h1 | h2
      · exact ih _ _ h1
      · have hb2 : b = 48 + n % 10 := by simpa using h2
        have hm : n % 10 < 10 := Nat.mod_lt _ (by omega)
        omega

theorem natDigsAux_foldl : ∀ (fuel n a : Nat), n < 10 ^ fuel →
    (natDigsAux n fuel).foldl (fun x b => x * 10 + (b - 48)) a
      = a * 10 ^ (natDigsAux n fuel).length + n := by
  intro fuel
  induction fuel with
  | zero =>
    intro n a hn
    interval_cases n
    simp [natDigsAux]
  | succ f ih =>
    intro n a hn
    by_cases h0 : n = 0
    · simp [natDigsAux, h0]
    · have hdiv : n / 10 < 10 ^ f := by
        rw [Nat.div_lt_iff_lt_mul (by norm_num)]
        calc n < 10 ^ (f + 1) := hn
        _ = 10 ^ f * 10 := by ring
      simp only [natDigsAux, h0, ite_false]
      rw [List.foldl_append, ih _ a hdiv]
      simp only [List.foldl_cons, List.foldl_nil, List.length_append,
        List.length_cons, List.length_nil]
      have h1 : 48 + n % 10 - 48 = n % 10 := by omega
      have h2 : n / 10 * 10 + n % 10 = n := by omega
      rw [h1, Nat.zero_add, pow_succ, Nat.add_mul, Nat.add_assoc, h2,
        Nat.mul_assoc]

theorem digsVal_natDigs (n : Nat) : digsVal (natDigs n) = n := by
  unfold natDigs digsVal
  by_cases h0 : n = 0
  · subst h0; norm_num [List.foldl]
  · simp only [h0, ite_false]
    have hlt : n < 10 ^ n := Nat.lt_pow_self (by norm_num) n
    rw [natDigsAux_foldl n n 0 hlt]
    simp

theorem natDigs_ne_nil (n : Nat) : natDigs n ≠ [] := by
  unfold natDigs
  by_cases h0 : n = 0
  · simp [h0]
  · simp only [h0, ite_false]
    cases n with
    | zero => exact absurd rfl h0
    | succ m => simp [natDigsAux]

theorem natDigs_mem (n b : Nat) (hb : b ∈ natDigs n) : 48 ≤ b ∧ b ≤ 57 := by
  unfold natDigs at hb
  by_cases h0 : n = 0
  · simp [h0] at hb; omega
  · simp only [h0, ite_false] at hb
    exact natDigsAux_mem n n b hb

/-! ## Number parsing inverts number rendering -/

theorem grabDigs_append (l rest : List Nat) (hl : ∀ b ∈ l, isDigB b = true)
    (hrest : numStop rest = true) : grabDigs (l ++ rest) = (l, rest) := by
  induction l with
  | nil =>
    simp only [List.nil_append]
    cases rest with
    | nil => rfl
    | cons b r =>
      have hb : isDigB b = false := by simpa [numStop] using hrest
      simp [grabDigs, hb]
  | cons b t ih =>
    have hb : isDigB b = true := hl b (by simp)
    have ht : ∀ x ∈ t, isDigB x = true := fun x hx => hl x (by simp [hx])
    simp [grabDigs, hb, ih ht]

theorem natDigs_isDig (n : Nat) : ∀ b ∈ natDigs n, isDigB b = true := by
  intro b hb
  have := natDigs_mem n b hb
  simp only [isDigB, Bool.and_eq_true, decide_eq_true_eq]
  omega

theorem numParse_render (i : Int) (rest : List Nat)
    (hrest : numStop rest = true) :
    numParse (intRender i ++ rest) = some (i, rest) := by
  unfold intRender
  by_cases hneg : i < 0
  · simp only [hneg, ite_true, List.cons_append]
    simp only [numParse]
    rw [grabDigs_append _ _ (natDigs_isDig _) hrest]
    rw [if_neg (by exact natDigs_ne_nil _), digsVal_natDigs]
    have h3 : -((i.natAbs : Int)) = i := by omega
    rw [h3]
  · simp only [hneg, ite_false]
    cases hnd : natDigs i.natAbs with
    | nil => exact absurd hnd (natDigs_ne_nil _)
    | cons b t =>
      have hb48 : 48 ≤ b ∧ b ≤ 57 := natDigs_mem _ b (by rw [hnd]; simp)
      rw [numParse.eq_def]
      simp only [List.cons_append]
      split
      · rename_i r heq
        rw [List.cons_eq_cons] at heq
        omega
      · rename_i hne
        rw [show b :: (t ++ rest) = (b :: t) ++ rest from rfl,
          grabDigs_append _ _ (by rw [← hnd]; exact natDigs_isDig _) hrest]
        rw [if_neg (by simp : ¬((b :: t : List Nat) = []))]
        rw [← hnd, digsVal_natDigs]
        have h3 : ((i.natAbs : Int)) = i := by omega
        rw [h3]

theorem skipWsB_cons (b : Nat) (l : List Nat) (hb : isWsB b = false) :
    skipWsB (b :: l) = b :: l := by
  simp [skipWsB, hb]

/-! ## String parsing inverts string rendering -/

theorem strParseAux_esc (b : Nat) (acc r : List Nat) :
    strParseAux acc (escByte b ++ r) = strParseAux (b :: acc) r := by
  by_cases h34 : b = 34
  · subst h34; rfl
  by_cases h92 : b = 92
  · subst h92; rfl
  by_cases hlt : b < 32
  · interval_cases b <;> rfl
  · have he : escByte b = [b] := by
      unfold escByte
      rw [if_neg h34, if_neg h92, if_neg (by omega), if_neg (by omega),
        if_neg (by omega), if_neg (by omega), if_neg (by omega),
        if_neg (by omega)]
    rw [he, show ([b] ++ r : List Nat) = b :: r from rfl, strParseAux.eq_def]
    split
    · rename_i heq
      rw [List.cons_eq_cons] at heq
      exact absurd heq.1 h34
    · rename_i heq
      rw [List.cons_eq_cons] at heq
      exact absurd heq.1 h92
    · rename_i heq
      rw [List.cons_eq_cons] at heq
      exact absurd heq.1 h92
    · rename_i heq
      rw [List.cons_eq_cons] at heq
      obtain ⟨rfl, rfl⟩ := heq
      rfl
    · rename_i heq
      exact absurd heq (by simp)

theorem strParseAux_render (s : List Nat) : ∀ (acc rest : List Nat),
    strParseAux acc (s.flatMap escByte ++ 34 :: rest)
      = some (acc.reverse ++ s, rest) := by
  induction s with
  | nil => intro acc rest; simp [strParseAux]
  | cons b t ih =>
    intro acc rest
    rw [List.flatMap_cons, List.append_assoc, strParseAux_esc, ih]
    simp

/-! ## The first byte of a rendering -/

theorem isWsB_false_of_ge (b : Nat) (hb : 45 ≤ b) : isWsB b = false := by
  simp only [isWsB, Bool.or_eq_false_iff, decide_eq_false_iff_not]
  omega

theorem intRender_ne_nil (i : Int) : intRender i ≠ [] := by
  unfold intRender
  by_cases hneg : i < 0
  · simp [hneg]
  · simp [hneg, natDigs_ne_nil]

theorem intRender_head (i : Int) (b : Nat) (t : List Nat)
    (h : intRender i = b :: t) : b = 45 ∨ (48 ≤ b ∧ b ≤ 57) := by
  unfold intRender at h
  by_cases hneg : i < 0
  · simp only [hneg, ite_true, List.cons_eq_cons] at h
    omega
  · simp only [hneg, ite_false] at h
    right
    exact natDigs_mem _ b (by rw [h]; simp)

theorem jrender_head (v : JVal) : ∃ b t, jrender v = b :: t ∧
    isWsB b = false ∧ b ≠ 93 ∧ b ≠ 125 := by
  cases v with
  | str s => exact ⟨34, _, rfl, rfl, by omega, by omega⟩
  | num i =>
    cases hir : intRender i with
    | nil => exact absurd hir (intRender_ne_nil i)
    | cons b t =>
      have hb := intRender_head i b t hir
      exact ⟨b, t, hir, isWsB_false_of_ge b (by omega), by omega, by omega⟩
  | jbool bb => cases bb
                · exact ⟨102, _, rfl, rfl, by omega, by omega⟩
                · exact ⟨116, _, rfl, rfl, by omega, by omega⟩
  | jnull => exact ⟨110, _, rfl, rfl, by omega, by omega⟩
  | arr es => exact ⟨91, _, rfl, rfl, by omega, by omega⟩
  | obj fs => exact ⟨123, _, rfl, rfl, by omega, by omega⟩

theorem jrenderItems_cons (e : JVal) (es : List JVal) :
    ∃ t, jrenderItems (e :: es) = jrender e ++ t := by
  cases es with
  | nil => exact ⟨[], by simp [jrenderItems]⟩
  | cons e2 es2 => exact ⟨_, rfl⟩

theorem jrenderFields_cons_nil (k : List Nat) (v : JVal) :
    jrenderFields [(k, v)] = 34 :: (k.flatMap escByte ++ 34 :: 58 :: jrender v) := by
  simp [jrenderFields, strRender]

theorem jrenderFields_cons_cons (k : List Nat) (v : JVal) (p2 : List Nat × JVal)
    (fs2 : List (List Nat × JVal)) :
    jrenderFields ((k, v) :: p2 :: fs2)
      = 34 :: (k.flatMap escByte ++ 34 :: 58 ::
          (jrender v ++ 44 :: jrenderFields (p2 :: fs2))) := by
  obtain ⟨k2, v2⟩ := p2
  simp [jrenderFields, strRender]

theorem jrenderFields_head (fs : List (List Nat × JVal)) (p : List Nat × JVal) :
    ∃ t, jrenderFields (p :: fs) = 34 :: t := by
  obtain ⟨k, v⟩ := p
  cases fs with
  | nil => exact ⟨_, jrenderFields_cons_nil k v⟩
  | cons p2 fs2 => exact ⟨_, jrenderFields_cons_cons k v p2 fs2⟩

/-! ## Parsing inverts rendering -/

theorem jparse_num_head (f b : Nat) (r : List Nat)
    (hb : b = 45 ∨ (48 ≤ b ∧ b ≤ 57)) :
    jparse (f + 1) (b :: r)
      = (match numParse (b :: r) with
         | some (i, r1) => some (JVal.num i, r1)
         | none => none) := by
  rcases hb with rfl | ⟨hb1, hb2⟩
  · simp [jparse, skipWsB, isWsB]
  · interval_cases b <;> simp [jparse, skipWsB, isWsB, isDigB]

theorem jparse_render_all (fuel : Nat) :
    (∀ v rest, jfuelV v ≤ fuel → numStop rest = true →
      jparse fuel (jrender v ++ rest) = some (v, rest)) ∧
    (∀ e es rest, jfuelI (e :: es) ≤ fuel →
      jparseItems fuel (jrenderItems (e :: es) ++ 93 :: rest)
        = some (e :: es, rest)) ∧
    (∀ k v fs rest, jfuelF ((k, v) :: fs) ≤ fuel →
      jparseFields fuel (jrenderFields ((k, v) :: fs) ++ 125 :: rest)
        = some ((k, v) :: fs, rest)) := by
  induction fuel with
  | zero =>
    refine ⟨?_, ?_, ?_⟩
    · intro v rest hf
      exact absurd hf (by cases v <;> simp only [jfuelV] <;> omega)
    · intro e es rest hf
      exact absurd hf (by simp only [jfuelI]; omega)
    · intro k v fs rest hf
      exact absurd hf (by simp only [jfuelF]; omega)
  | succ f ih =>
    obtain ⟨ihV, ihI, ihF⟩ := ih
    refine ⟨?_, ?_, ?_⟩
    · intro v rest hf hstop
      cases v with
      | jnull =>
        rw [show jrender JVal.jnull ++ rest = 110 :: 117 :: 108 :: 108 :: rest
            from rfl]
        simp [jparse, skipWsB, isWsB]
      | jbool b =>
        cases b
        · rw [show jrender (JVal.jbool false) ++ rest
              = 102 :: 97 :: 108 :: 115 :: 101 :: rest from rfl]
          simp [jparse, skipWsB, isWsB]
        · rw [show jrender (JVal.jbool true) ++ rest
              = 116 :: 114 :: 117 :: 101 :: rest from rfl]
          simp [jparse, skipWsB, isWsB]
      | str s =>
        rw [show jrender (JVal.str s) ++ rest
            = 34 :: (s.flatMap escByte ++ 34 :: rest) from by
              simp [jrender, strRender]]
        simp [jparse, skipWsB, isWsB, strParseAux_render]
      | num i =>
        cases hir : intRender i with
        | nil => exact absurd hir (intRender_ne_nil i)
        | cons b t =>
          rw [show jrender (JVal.num i) ++ rest = b :: (t ++ rest) from by
            rw [show jrender (JVal.num i) = intRender i from rfl, hir]; rfl]
          rw [jparse_num_head f b (t ++ rest) (intRender_head i b t hir)]
          rw [show b :: (t ++ rest) = intRender i ++ rest from by rw [hir]; rfl]
          rw [numParse_render i rest hstop]
      | arr es =>
        cases es with
        | nil =>
          rw [show jrender (JVal.arr []) ++ rest = 91 :: 93 :: rest from by
            simp [jrender, jrenderItems]]
          simp [jparse, skipWsB, isWsB]
        | cons e es2 =>
          obtain ⟨t0, ht0⟩ := jrenderItems_cons e es2
          obtain ⟨b0, t1, hb0, hws0, h93, _⟩ := jrender_head e
          have hX : jrenderItems (e :: es2) ++ 93 :: rest
              = b0 :: (t1 ++ (t0 ++ 93 :: rest)) := by
            rw [ht0, hb0]; simp
          have hskip : skipWsB (jrenderItems (e :: es2) ++ 93 :: rest)
              = jrenderItems (e :: es2) ++ 93 :: rest := by
            rw [hX]; exact skipWsB_cons _ _ hws0
          rw [show jrender (JVal.arr (e :: es2)) ++ rest
              = 91 :: (jrenderItems (e :: es2) ++ 93 :: rest) from by
                simp [jrender]]
          simp only [jparse, skipWsB_cons _ _ (by rfl : isWsB 91 = false)]
          rw [if_neg (by omega), if_neg (by omega), if_neg (by omega),
            if_neg (by omega), if_pos trivial]
          rw [hskip]
          split
          · rename_i r1 heq
            rw [hX, List.cons_eq_cons] at heq
            exact absurd heq.1 h93
          · rename_i heq
            rw [ihI e es2 rest (by
              simp only [jfuelV, jfuelI, jfuelF] at hf
              (try simp only [jfuelV, jfuelI, jfuelF]); omega)]
      | obj fs =>
        cases fs with
        | nil =>
          rw [show jrender (JVal.obj []) ++ rest = 123 :: 125 :: rest from by
            simp [jrender, jrenderFields]]
          simp [jparse, skipWsB, isWsB]
        | cons p fs2 =>
          obtain ⟨k, v0⟩ := p
          obtain ⟨ty, hty⟩ := jrenderFields_head fs2 (k, v0)
          have hX : jrenderFields ((k, v0) :: fs2) ++ 125 :: rest
              = 34 :: (ty ++ 125 :: rest) := by
            rw [hty]; rfl
          have hskip : skipWsB (jrenderFields ((k, v0) :: fs2) ++ 125 :: rest)
              = jrenderFields ((k, v0) :: fs2) ++ 125 :: rest := by
            rw [hX]; exact skipWsB_cons _ _ (by rfl)
          rw [show jrender (JVal.obj ((k, v0) :: fs2)) ++ rest
              = 123 :: (jrenderFields ((k, v0) :: fs2) ++ 125 :: rest) from by
                simp [jrender]]
          simp only [jparse, skipWsB_cons _ _ (by rfl : isWsB 123 = false)]
          rw [if_neg (by omega), if_neg (by omega), if_neg (by omega),
            if_neg (by omega), if_neg (by omega), if_pos trivial]
          rw [hskip]
          split
          · rename_i r1 heq
            rw [hX, List.cons_eq_cons] at heq
            omega
          · rename_i heq
            rw [ihF k v0 fs2 rest (by
              simp only [jfuelV, jfuelI, jfuelF] at hf
              (try simp only [jfuelV, jfuelI, jfuelF]); omega)]
    · intro e es rest hf
      cases es with
      | nil =>
        rw [show jrenderItems [e] = jrender e from rfl]
        simp only [jparseItems]
        rw [ihV e (93 :: rest) (by
          simp only [jfuelV, jfuelI, jfuelF] at hf
          (try simp only [jfuelV, jfuelI, jfuelF]); omega) (by rfl)]
        simp [skipWsB, isWsB]
      | cons e2 es2 =>
        rw [show jrenderItems (e :: e2 :: es2)
            = jrender e ++ 44 :: jrenderItems (e2 :: es2) from rfl]
        rw [List.append_assoc, List.cons_append]
        obtain ⟨t0, ht0⟩ := jrenderItems_cons e2 es2
        obtain ⟨b0, t1, hb0, hws0, _, _⟩ := jrender_head e2
        have hX : jrenderItems (e2 :: es2) ++ 93 :: rest
            = b0 :: (t1 ++ (t0 ++ 93 :: rest)) := by
          rw [ht0, hb0]; simp
        have hskip : skipWsB (jrenderItems (e2 :: es2) ++ 93 :: rest)
            = jrenderItems (e2 :: es2) ++ 93 :: rest := by
          rw [hX]; exact skipWsB_cons _ _ hws0
        simp only [jparseItems]
        rw [ihV e (44 :: (jrenderItems (e2 :: es2) ++ 93 :: rest)) (by
          simp only [jfuelV, jfuelI, jfuelF] at hf
          (try simp only [jfuelV, jfuelI, jfuelF]); omega) (by rfl)]
        simp only [skipWsB_cons _ _ (by rfl : isWsB 44 = false), hskip]
        rw [ihI e2 es2 rest (by
          simp only [jfuelV, jfuelI, jfuelF] at hf
          (try simp only [jfuelV, jfuelI, jfuelF]); omega)]
    · intro k v fs rest hf
      obtain ⟨bv, tv, hbv, hwsv, _, _⟩ := jrender_head v
      cases fs with
      | nil =>
        rw [jrenderFields_cons_nil, show
          (34 :: (k.flatMap escByte ++ 34 :: 58 :: jrender v)) ++ 125 :: rest
            = 34 :: (k.flatMap escByte ++ 34 ::
                (58 :: (jrender v ++ 125 :: rest)))
          from by simp]
        have hskipv : skipWsB (jrender v ++ 125 :: rest)
            = jrender v ++ 125 :: rest := by
          rw [hbv, List.cons_append]; exact skipWsB_cons _ _ hwsv
        simp only [jparseFields, skipWsB_cons _ _ (by rfl : isWsB 34 = false),
          strParseAux_render, List.reverse_nil, List.nil_append,
          skipWsB_cons _ _ (by rfl : isWsB 58 = false), hskipv]
        rw [ihV v (125 :: rest) (by
          simp only [jfuelV, jfuelI, jfuelF] at hf
          (try simp only [jfuelV, jfuelI, jfuelF]); omega) (by rfl)]
        simp [skipWsB, isWsB]
      | cons p2 fs2 =>
        obtain ⟨k2, v2⟩ := p2
        rw [jrenderFields_cons_cons, show
          (34 :: (k.flatMap escByte ++ 34 :: 58 ::
            (jrender v ++ 44 :: jrenderFields ((k2, v2) :: fs2)))) ++
              125 :: rest
            = 34 :: (k.flatMap escByte ++ 34 :: (58 :: (jrender v ++
                44 :: (jrenderFields ((k2, v2) :: fs2) ++ 125 :: rest))))
          from by simp]
        have hskipv : skipWsB (jrender v ++
            44 :: (jrenderFields ((k2, v2) :: fs2) ++ 125 :: rest))
            = jrender v ++
              44 :: (jrenderFields ((k2, v2) :: fs2) ++ 125 :: rest) := by
          rw [hbv, List.cons_append]; exact skipWsB_cons _ _ hwsv
        obtain ⟨ty, hty⟩ := jrenderFields_head fs2 (k2, v2)
        have hskipf : skipWsB (jrenderFields ((k2, v2) :: fs2) ++ 125 :: rest)
            = jrenderFields ((k2, v2) :: fs2) ++ 125 :: rest := by
          rw [hty, List.cons_append]; exact skipWsB_cons _ _ (by rfl)
        simp only [jparseFields, skipWsB_cons _ _ (by rfl : isWsB 34 = false),
          strParseAux_render, List.reverse_nil, List.nil_append,
          skipWsB_cons _ _ (by rfl : isWsB 58 = false), hskipv]
        rw [ihV v (44 :: (jrenderFields ((k2, v2) :: fs2) ++ 125 :: rest)) (by
          simp only [jfuelV, jfuelI, jfuelF] at hf
          (try simp only [jfuelV, jfuelI, jfuelF]); omega) (by rfl)]
        simp only [skipWsB_cons _ _ (by rfl : isWsB 44 = false), hskipf]
        rw [ihF k2 v2 fs2 rest (by
          simp only [jfuelV, jfuelI, jfuelF] at hf
          (try simp only [jfuelV, jfuelI, jfuelF]); omega)]

theorem jparse_render (v : JVal) (fuel : Nat) (rest : List Nat)
    (hf : jfuelV v ≤ fuel) (hstop : numStop rest = true) :
    jparse fuel (jrender v ++ rest) = some (v, rest) :=
  (jparse_render_all fuel).1 v rest hf hstop

theorem jfuel_le_len_all (n : Nat) :
    (∀ v : JVal, sizeOf v ≤ n → jfuelV v ≤ (jrender v).length) ∧
    (∀ es : List JVal, sizeOf es ≤ n →
      jfuelI es ≤ (jrenderItems es).length + 1) ∧
    (∀ fs : List (List Nat × JVal), sizeOf fs ≤ n →
      jfuelF fs ≤ (jrenderFields fs).length + 1) := by
  induction n with
  | zero =>
    refine ⟨?_, ?_, ?_⟩
    · intro v hs
      exact absurd hs (by cases v <;> simp <;> omega)
    · intro es hs
      exact absurd hs (by cases es <;> simp <;> omega)
    · intro fs hs
      exact absurd hs (by cases fs <;> simp <;> omega)
  | succ n ih =>
    obtain ⟨ihV, ihI, ihF⟩ := ih
    refine ⟨?_, ?_, ?_⟩
    · intro v hs
      cases v with
      | str s => simp [jfuelV, jrender, strRender]
      | num i =>
        have hpos : 0 < (intRender i).length :=
          List.length_pos.mpr (intRender_ne_nil i)
        simp only [jfuelV, jrender]
        omega
      | jbool b => cases b <;> simp [jfuelV, jrender]
      | jnull => simp [jfuelV, jrender]
      | arr es =>
        have h1 := ihI es (by simp at hs; omega)
        simp only [jfuelV, jrender, List.length_cons, List.length_append,
          List.length_singleton]
        omega
      | obj fs =>
        have h1 := ihF fs (by simp at hs; omega)
        simp only [jfuelV, jrender, List.length_cons, List.length_append,
          List.length_singleton]
        omega
    · intro es hs
      cases es with
      | nil => simp [jfuelI, jrenderItems]
      | cons e es2 =>
        have h1 := ihV e (by simp at hs; omega)
        cases es2 with
        | nil =>
          simp only [jfuelI, jrenderItems]
          omega
        | cons e2 es3 =>
          have h2 := ihI (e2 :: es3) (by simp at hs; simp; omega)
          simp only [jfuelI] at h2 ⊢
          rw [show jrenderItems (e :: e2 :: es3)
              = jrender e ++ 44 :: jrenderItems (e2 :: es3) from rfl]
          simp only [List.length_append, List.length_cons]
          omega
    · intro fs hs
      cases fs with
      | nil => simp [jfuelF, jrenderFields]
      | cons p fs2 =>
        obtain ⟨k, v⟩ := p
        have h1 := ihV v (by simp at hs; omega)
        cases fs2 with
        | nil =>
          simp only [jfuelF, jrenderFields_cons_nil, List.length_cons,
            List.length_append]
          omega
        | cons p2 fs3 =>
          have h2 := ihF (p2 :: fs3) (by simp at hs; simp; omega)
          simp only [jfuelF] at h2 ⊢
          rw [jrenderFields_cons_cons]
          simp only [List.length_cons, List.length_append]
          omega

theorem jfuelV_le (v : JVal) : jfuelV v ≤ (jrender v).length + 1 :=
  le_trans ((jfuel_le_len_all (sizeOf v)).1 v le_rfl) (by omega)

theorem jparseFull_render (v : JVal) : jparseFull (jrender v) = some v := by
  unfold jparseFull
  have h := jparse_render v ((jrender v).length + 1) [] (jfuelV_le v) rfl
  rw [List.append_nil] at h
  rw [h]
  simp [skipWsB]

/-! ## Object splice lemmas -/

theorem objSet_append (fs : List (List Nat × JVal)) (k : List Nat) (v : JVal)
    (h : ∀ p ∈ fs, p.1 ≠ k) : objSet fs k v = fs ++ [(k, v)] := by
  induction fs with
  | nil => rfl
  | cons p rest ih =>
    obtain ⟨k0, v0⟩ := p
    have hk : k0 ≠ k := h (k0, v0) (by simp)
    simp only [objSet, hk, ite_false, List.cons_append]
    rw [ih (fun q hq => h q (by simp [hq]))]

theorem objGet_append_right (fs1 fs2 : List (List Nat × JVal)) (k : List Nat) :
    objGet (fs1 ++ fs2) k
      = match objGet fs2 k with
        | some v => some v
        | none => objGet fs1 k := by
  induction fs1 with
  | nil =>
    simp only [List.nil_append]
    cases hg : objGet fs2 k with
    | none => simp [objGet]
    | some v => simp
  | cons p fs1x ih =>
    obtain ⟨k0, v0⟩ := p
    rw [List.cons_append]
    simp only [objGet]
    rw [ih]
    cases hg : objGet fs2 k with
    | none => simp [objGet]
    | some v => simp

theorem objGet_append_self (fs : List (List Nat × JVal)) (k : List Nat)
    (v : JVal) : objGet (fs ++ [(k, v)]) k = some v := by
  rw [objGet_append_right]
  simp [objGet]

theorem objGet_eq_none (fs : List (List Nat × JVal)) (k : List Nat)
    (h : ∀ p ∈ fs, p.1 ≠ k) : objGet fs k = none := by
  induction fs with
  | nil => rfl
  | cons p rest ih =>
    obtain ⟨k0, v0⟩ := p
    simp only [objGet]
    rw [ih (fun q hq => h q (by simp [hq]))]
    simp [h (k0, v0) (by simp)]

theorem objDel_append (fs : List (List Nat × JVal)) (k : List Nat) (v : JVal)
    (h : ∀ p ∈ fs, p.1 ≠ k) : objDel (fs ++ [(k, v)]) k = fs := by
  unfold objDel
  rw [List.filter_append,
    List.filter_eq_self.mpr (by intro p hp; simpa using h p hp)]
  simp

/-! ## C6: the wire-frame round trip -/

theorem splitFirst_append (ev rest : List Nat) (h : 124 ∉ ev) :
    splitFirst 124 (ev ++ 124 :: rest) = some (ev, rest) := by
  induction ev with
  | nil => simp [splitFirst]
  | cons b t ih =>
    have hb : b ≠ 124 := fun hb => h (by simp [hb])
    have ht : 124 ∉ t := fun hm => h (by simp [hm])
    simp [splitFirst, hb, ih ht]

/-- C6 (amended): encode/decode of a wire frame round-trips for every
non-empty event tag without a pipe byte and every representable payload
that survives the decoder's JSON sniffing: raw strings not beginning with
a brace or bracket, arrays, undefined, and objects without their own `_q`
key; the spliced `_q` of an object payload is stripped into the decoded
`seq` field, and an empty payload decodes to the empty raw string.  The
spec's unamended claim, quantifying over all raw strings and objects, is
refuted by `frame_roundTrip_cex`. -/
theorem frame_roundTrip (event : List Nat) (d : WireData) (seq : Int)
    (hev : event ≠ []) (hpipe : 124 ∉ event) (hok : payloadOk d = true) :
    (encodeFrame event d seq).bind decodeFrame
      = some ⟨event, seqExpected d seq, decExpected d⟩ := by
  cases d with
  | undef =>
    rw [show encodeFrame event .undef seq = some (event ++ [124]) from by
      simp [encodeFrame, hev]]
    show decodeFrame (event ++ [124]) = _
    unfold decodeFrame
    rw [if_neg (by simp [hev]),
      show (event ++ [124] : List Nat) = event ++ 124 :: [] from rfl,
      splitFirst_append event [] hpipe]
    simp [seqExpected, decExpected]
  | raw s =>
    rw [show encodeFrame event (.raw s) seq = some (event ++ 124 :: s) from by
      simp [encodeFrame, hev]]
    show decodeFrame (event ++ 124 :: s) = _
    unfold decodeFrame
    rw [if_neg (by simp [hev]), splitFirst_append event s hpipe]
    cases s with
    | nil => simp [seqExpected, decExpected]
    | cons b sx =>
      have hb : b ≠ 123 ∧ b ≠ 91 := by
        simp [payloadOk] at hok
        exact hok
      simp [seqExpected, decExpected, hb.1, hb.2]
  | warr es =>
    rw [show encodeFrame event (.warr es) seq
        = some (event ++ 124 :: jrender (JVal.arr es)) from by
      simp [encodeFrame, hev]]
    show decodeFrame (event ++ 124 :: jrender (JVal.arr es)) = _
    unfold decodeFrame
    rw [if_neg (by simp [hev]),
      splitFirst_append event (jrender (JVal.arr es)) hpipe]
    obtain ⟨t, ht⟩ : ∃ t, jrender (JVal.arr es) = 91 :: t :=
      ⟨jrenderItems es ++ [93], by simp [jrender]⟩
    rw [ht]
    dsimp only
    rw [if_pos (show (decide ((91 : Nat) = 123)
      || decide ((91 : Nat) = 91)) = true from by decide)]
    rw [← ht, jparseFull_render (JVal.arr es)]
    simp [seqExpected, decExpected]
  | wobj fs =>
    have hq : ∀ p ∈ fs, p.1 ≠ kQ := by
      simp [payloadOk] at hok
      intro p hp
      exact hok p.1 p.2 hp
    rw [show encodeFrame event (.wobj fs) seq
        = some (event ++ 124 :: jrender (JVal.obj (objSet fs kQ (.num seq))))
      from by simp [encodeFrame, hev]]
    show decodeFrame (event ++ 124 ::
      jrender (JVal.obj (objSet fs kQ (.num seq)))) = _
    unfold decodeFrame
    rw [if_neg (by simp [hev]),
      splitFirst_append event _ hpipe]
    obtain ⟨t, ht⟩ : ∃ t,
        jrender (JVal.obj (objSet fs kQ (.num seq))) = 123 :: t :=
      ⟨jrenderFields (objSet fs kQ (.num seq)) ++ [125], by simp [jrender]⟩
    rw [ht]
    dsimp only
    rw [if_pos (show (decide ((123 : Nat) = 123)
      || decide ((123 : Nat) = 91)) = true from by decide)]
    rw [← ht, jparseFull_render (JVal.obj (objSet fs kQ (.num seq))),
      objSet_append fs kQ (.num seq) hq]
    simp only [objGet_append_self]
    rw [objDel_append fs kQ (.num seq) hq]
    simp [seqExpected, decExpected]

/-- The spec's unamended Frame-RoundTrip fails on the raw payload "[": the
encoded frame is sniffed as JSON on decode and rejected as malformed. -/
theorem frame_roundTrip_cex :
    (encodeFrame [120] (WireData.raw [91]) 0).bind decodeFrame = none ∧
    decExpected (WireData.raw [91]) = DecData.draw [91] :=
  ⟨rfl, rfl⟩

/-! ## Base64 -/

theorem b64Val_char : ∀ n, n < 64 → b64Val (b64Char n) = n := by decide

theorem b64Char_range (n : Nat) :
    b64Char n = 43 ∨ b64Char n = 47 ∨ (48 ≤ b64Char n ∧ b64Char n ≤ 57)
      ∨ (65 ≤ b64Char n ∧ b64Char n ≤ 90)
      ∨ (97 ≤ b64Char n ∧ b64Char n ≤ 122) := by
  unfold b64Char
  split
  · right; right; right; left; omega
  split
  · right; right; right; right; omega
  split
  · right; right; left; omega
  split
  · left; rfl
  · right; left; rfl

theorem b64Char_facts (n : Nat) :
    b64Char n < 128 ∧ b64Char n ≠ 45 ∧ b64Char n ≠ 61 := by
  rcases b64Char_range n with h | h | h | h | h <;> omega

theorem b64Encode_mem (l : List Nat) :
    ∀ c ∈ b64Encode l, c < 128 ∧ c ≠ 45 := by
  induction l using b64Encode.induct with
  | case1 => intro c hc; simp [b64Encode] at hc
  | case2 a =>
    intro c hc
    simp [b64Encode] at hc
    rcases hc with rfl | rfl | rfl
    · exact ⟨(b64Char_facts _).1, (b64Char_facts _).2.1⟩
    · exact ⟨(b64Char_facts _).1, (b64Char_facts _).2.1⟩
    · omega
  | case3 a b =>
    intro c hc
    simp [b64Encode] at hc
    rcases hc with rfl | rfl | rfl | rfl
    · exact ⟨(b64Char_facts _).1, (b64Char_facts _).2.1⟩
    · exact ⟨(b64Char_facts _).1, (b64Char_facts _).2.1⟩
    · exact ⟨(b64Char_facts _).1, (b64Char_facts _).2.1⟩
    · omega
  | case4 a b c rest ih =>
    intro x hx
    simp only [b64Encode, List.mem_cons] at hx
    rcases hx with rfl | rfl | rfl | rfl | hx
    · exact ⟨(b64Char_facts _).1, (b64Char_facts _).2.1⟩
    · exact ⟨(b64Char_facts _).1, (b64Char_facts _).2.1⟩
    · exact ⟨(b64Char_facts _).1, (b64Char_facts _).2.1⟩
    · exact ⟨(b64Char_facts _).1, (b64Char_facts _).2.1⟩
    · exact ih x hx

theorem b64Decode_quad (c1 c2 c3 c4 : Nat) (rest : List Nat)
    (h3 : c3 ≠ 61) (h4 : c4 ≠ 61) :
    b64Decode (c1 :: c2 :: c3 :: c4 :: rest)
      = (b64Val c1 * 4 + b64Val c2 / 16) ::
        (b64Val c2 % 16 * 16 + b64Val c3 / 4) ::
        (b64Val c3 % 4 * 64 + b64Val c4) :: b64Decode rest := by
  rw [b64Decode.eq_def]
  split
  · rename_i heq
    simp only [List.cons.injEq] at heq
    exact absurd heq.2.2.1 h3
  · rename_i heq
    simp only [List.cons.injEq] at heq
    exact absurd heq.2.2.2.1 h4
  · rename_i hg3 hg4 heq
    simp only [List.cons.injEq] at heq
    obtain ⟨rfl, rfl, rfl, rfl, rfl⟩ := heq
    rfl
  · rename_i heq
    simp only [List.cons.injEq] at heq
    exact absurd heq.2.2 (by simp)
  · rename_i h1 h2 h3 h4
    exact absurd rfl (h3 c1 c2 c3 c4 rest)

theorem b64Decode_pad2 (c1 c2 c3 : Nat) (rest : List Nat) (h3 : c3 ≠ 61) :
    b64Decode (c1 :: c2 :: c3 :: 61 :: rest)
      = [b64Val c1 * 4 + b64Val c2 / 16,
         b64Val c2 % 16 * 16 + b64Val c3 / 4] := by
  rw [b64Decode.eq_def]
  split
  · rename_i heq
    simp only [List.cons.injEq] at heq
    exact absurd heq.2.2.1 h3
  · rename_i heq
    simp only [List.cons.injEq] at heq
    obtain ⟨rfl, rfl, rfl, -, rfl⟩ := heq
    rfl
  · rename_i hg3 hg4 heq
    simp only [List.cons.injEq] at heq
    exact absurd heq.2.2.2.1.symm hg4
  · rename_i heq
    simp only [List.cons.injEq] at heq
    exact absurd heq.2.2 (by simp)
  · rename_i h1 h2 h3x h4
    exact absurd rfl (h2 c1 c2 c3 rest)

theorem b64_roundTrip : ∀ (n : Nat) (l : List Nat), l.length ≤ n →
    (∀ b ∈ l, b < 256) → b64Decode (b64Encode l) = l := by
  intro n
  induction n with
  | zero =>
    intro l hl _
    have h0 : l = [] := List.length_eq_zero.mp (by omega)
    subst h0
    rfl
  | succ n ih =>
    intro l hl hb
    match l with
    | [] => rfl
    | [a] =>
      have ha : a < 256 := hb a (by simp)
      have e1 : b64Decode (b64Encode [a])
          = [b64Val (b64Char (a / 4)) * 4
              + b64Val (b64Char (a % 4 * 16)) / 16] := rfl
      rw [e1, b64Val_char _ (by omega), b64Val_char _ (by omega)]
      simp only [List.cons.injEq, and_true]
      omega
    | [a, b] =>
      have ha : a < 256 := hb a (by simp)
      have hbb : b < 256 := hb b (by simp)
      have e2 : b64Encode [a, b]
          = [b64Char (a / 4), b64Char (a % 4 * 16 + b / 16),
             b64Char (b % 16 * 4), 61] := rfl
      rw [e2, b64Decode_pad2 _ _ _ _ (b64Char_facts _).2.2,
        b64Val_char _ (by omega), b64Val_char _ (by omega),
        b64Val_char _ (by omega)]
      simp only [List.cons.injEq, and_true]
      constructor
      · omega
      · omega
    | a :: b :: c :: r2 =>
      have ha : a < 256 := hb a (by simp)
      have hbb : b < 256 := hb b (by simp)
      have hc : c < 256 := hb c (by simp)
      have e3 : b64Encode (a :: b :: c :: r2)
          = b64Char (a / 4) :: b64Char (a % 4 * 16 + b / 16) ::
            b64Char (b % 16 * 4 + c / 64) :: b64Char (c % 64) ::
            b64Encode r2 := rfl
      rw [e3, b64Decode_quad _ _ _ _ _ (b64Char_facts _).2.2
          (b64Char_facts _).2.2,
        b64Val_char _ (by omega), b64Val_char _ (by omega),
        b64Val_char _ (by omega), b64Val_char _ (by omega),
        ih r2 (by simp at hl; omega) (fun x hx => hb x (by simp [hx]))]
      simp only [List.cons.injEq]
      exact ⟨by omega, by omega, by omega, trivial⟩

theorem b64Encode_inj (l1 l2 : List Nat) (h1 : ∀ b ∈ l1, b < 256)
    (h2 : ∀ b ∈ l2, b < 256) (he : b64Encode l1 = b64Encode l2) :
    l1 = l2 := by
  have d1 := b64_roundTrip l1.length l1 le_rfl h1
  have d2 := b64_roundTrip l2.length l2 le_rfl h2
  rw [← d1, ← d2, he]

/-! ## Splitting a token on the dash -/

theorem splitByte_ne_nil (d : Nat) (l : List Nat) : splitByte d l ≠ [] := by
  cases l with
  | nil => simp [splitByte]
  | cons b r =>
    simp only [splitByte]
    by_cases hb : b = d
    · simp [hb]
    · simp only [hb, ite_false]
      cases splitByte d r <;> simp

theorem splitByte_length (d : Nat) (l : List Nat) :
    (splitByte d l).length = l.count d + 1 := by
  induction l with
  | nil => simp [splitByte]
  | cons b r ih =>
    by_cases hb : b = d
    · subst hb
      simp [splitByte, List.count_cons, ih]
    · cases hsp : splitByte d r with
      | nil => exact absurd hsp (splitByte_ne_nil d r)
      | cons x xs =>
        rw [hsp] at ih
        simp only [List.length_cons] at ih
        have hcount : (b :: r).count d = r.count d := by
          simp [List.count_cons, hb]
        simp only [splitByte, hb, ite_false, hsp, List.length_cons, hcount]
        omega

theorem splitByte_no (d : Nat) (l : List Nat) (h : d ∉ l) :
    splitByte d l = [l] := by
  induction l with
  | nil => rfl
  | cons b r ih =>
    have hb : b ≠ d := fun hb => h (by simp [hb])
    have hr : d ∉ r := fun hm => h (by simp [hm])
    simp [splitByte, hb, ih hr]

theorem splitByte_append (d : Nat) (a b : List Nat) (ha : d ∉ a) :
    splitByte d (a ++ d :: b) = a :: splitByte d b := by
  induction a with
  | nil => simp [splitByte]
  | cons x t ih =>
    have hx : x ≠ d := fun h => ha (by simp [h])
    have ht : d ∉ t := fun hm => ha (by simp [hm])
    simp [splitByte, hx, ih ht]

theorem frame_roundTrip_witness :
    ([120] : List Nat) ≠ [] ∧ 124 ∉ ([120] : List Nat) ∧
    payloadOk (WireData.wobj [([97], JVal.jbool true)]) = true ∧
    (encodeFrame [120] (WireData.wobj [([97], JVal.jbool true)]) 5).bind
        decodeFrame
      = some ⟨[120], some 5, DecData.dobj [([97], JVal.jbool true)]⟩ :=
  ⟨by decide, by decide, by decide,
   frame_roundTrip [120] (WireData.wobj [([97], JVal.jbool true)]) 5
     (by decide) (by decide) (by decide)⟩

/-! ## Rendered JSON is a byte string -/

theorem hexDigit_lt (d : Nat) (hd : d < 16) : hexDigit d < 256 := by
  unfold hexDigit
  split <;> omega

theorem escByte_mem (b x : Nat) (hb : b < 256) (hx : x ∈ escByte b) :
    x < 256 := by
  have h1 := hexDigit_lt (b / 16) (by omega)
  have h2 := hexDigit_lt (b % 16) (by omega)
  unfold escByte at hx
  repeat' split at hx
  all_goals (try simp at hx)
  all_goals
    first
      | omega
      | (rcases hx with rfl | rfl <;> omega)
      | (rcases hx with rfl | rfl | rfl | rfl | rfl <;> omega)
      | (rcases hx with rfl | rfl | rfl | rfl | rfl | rfl <;> omega)

theorem strRender_mem (s : List Nat) (hs : s.all (fun b => b < 256) = true) :
    ∀ x ∈ strRender s, x < 256 := by
  intro x hx
  unfold strRender at hx
  simp only [List.mem_cons, List.mem_append, List.mem_flatMap,
    List.mem_singleton, List.not_mem_nil, or_false] at hx
  rcases hx with rfl | ⟨b, hbmem, hbx⟩ | rfl
  · omega
  · exact escByte_mem b x (by simpa using List.all_eq_true.mp hs b hbmem) hbx
  · omega

theorem intRender_mem (i : Int) (x : Nat) (hx : x ∈ intRender i) : x < 256 := by
  unfold intRender at hx
  by_cases hneg : i < 0
  · simp only [hneg, ite_true, List.mem_cons] at hx
    rcases hx with rfl | hx
    · omega
    · have := natDigs_mem _ _ hx
      omega
  · simp only [hneg, ite_false] at hx
    have := natDigs_mem _ _ hx
    omega

theorem jrender_bytes_all (n : Nat) :
    (∀ v : JVal, sizeOf v ≤ n → jvalBytesOk v = true →
      ∀ b ∈ jrender v, b < 256) ∧
    (∀ es : List JVal, sizeOf es ≤ n → itemsBytesOk es = true →
      ∀ b ∈ jrenderItems es, b < 256) ∧
    (∀ fs : List (List Nat × JVal), sizeOf fs ≤ n →
      fieldsBytesOk fs = true → ∀ b ∈ jrenderFields fs, b < 256) := by
  induction n with
  | zero =>
    refine ⟨?_, ?_, ?_⟩
    · intro v hs
      exact absurd hs (by cases v <;> simp <;> omega)
    · intro es hs
      exact absurd hs (by cases es <;> simp <;> omega)
    · intro fs hs
      exact absurd hs (by cases fs <;> simp <;> omega)
  | succ n ih =>
    obtain ⟨ihV, ihI, ihF⟩ := ih
    refine ⟨?_, ?_, ?_⟩
    · intro v hs hok b hb
      cases v with
      | str s =>
        simp only [jvalBytesOk] at hok
        exact strRender_mem s hok b hb
      | num i => exact intRender_mem i b hb
      | jbool bb =>
        cases bb <;> simp [jrender] at hb <;> omega
      | jnull =>
        simp [jrender] at hb
        omega
      | arr es =>
        simp only [jvalBytesOk] at hok
        simp only [jrender, List.mem_cons, List.mem_append,
          List.mem_singleton, List.not_mem_nil, or_false] at hb
        rcases hb with rfl | hb | rfl
        · omega
        · exact ihI es (by simp at hs; omega) hok b hb
        · omega
      | obj fs =>
        simp only [jvalBytesOk] at hok
        simp only [jrender, List.mem_cons, List.mem_append,
          List.mem_singleton, List.not_mem_nil, or_false] at hb
        rcases hb with rfl | hb | rfl
        · omega
        · exact ihF fs (by simp at hs; omega) hok b hb
        · omega
    · intro es hs hok b hb
      cases es with
      | nil => simp [jrenderItems] at hb
      | cons e es2 =>
        simp only [itemsBytesOk, Bool.and_eq_true] at hok
        cases es2 with
        | nil =>
          rw [show jrenderItems [e] = jrender e from rfl] at hb
          exact ihV e (by simp at hs; omega) hok.1 b hb
        | cons e2 es3 =>
          rw [show jrenderItems (e :: e2 :: es3)
              = jrender e ++ 44 :: jrenderItems (e2 :: es3) from rfl] at hb
          simp only [List.mem_append, List.mem_cons] at hb
          rcases hb with hb | rfl | hb
          · exact ihV e (by simp at hs; omega) hok.1 b hb
          · omega
          · exact ihI (e2 :: es3) (by simp at hs; simp; omega) hok.2 b hb
    · intro fs hs hok b hb
      cases fs with
      | nil => simp [jrenderFields] at hb
      | cons p fs2 =>
        obtain ⟨k, v⟩ := p
        simp only [fieldsBytesOk, Bool.and_eq_true] at hok
        cases fs2 with
        | nil =>
          rw [show jrenderFields [(k, v)] = strRender k ++ 58 :: jrender v
              from rfl] at hb
          simp only [List.mem_append, List.mem_cons] at hb
          rcases hb with hb | rfl | hb
          · exact strRender_mem k hok.1.1 b hb
          · omega
          · exact ihV v (by simp at hs; omega) hok.1.2 b hb
        | cons p2 fs3 =>
          obtain ⟨k2, v2⟩ := p2
          rw [show jrenderFields ((k, v) :: (k2, v2) :: fs3)
              = strRender k ++ 58 :: jrender v ++
                44 :: jrenderFields ((k2, v2) :: fs3) from rfl] at hb
          simp only [List.mem_append, List.mem_cons] at hb
          rcases hb with (hb | rfl | hb) | rfl | hb
          · exact strRender_mem k hok.1.1 b hb
          · omega
          · exact ihV v (by simp at hs; omega) hok.1.2 b hb
          · omega
          · exact ihF ((k2, v2) :: fs3) (by simp at hs; simp; omega)
              hok.2 b hb

theorem jrender_bytes (v : JVal) (hok : jvalBytesOk v = true) :
    ∀ b ∈ jrender v, b < 256 :=
  (jrender_bytes_all (sizeOf v)).1 v le_rfl hok

theorem fieldsBytesOk_append (a b : List (List Nat × JVal)) :
    fieldsBytesOk (a ++ b) = (fieldsBytesOk a && fieldsBytesOk b) := by
  induction a with
  | nil => simp [fieldsBytesOk]
  | cons p t ih =>
    obtain ⟨k, v⟩ := p
    simp [fieldsBytesOk, ih, Bool.and_assoc]

/-! ## The modelled MAC is injective in its message -/

theorem hmacB64_mem (secret msg : List Nat) :
    ∀ c ∈ hmacB64 secret msg, c < 128 ∧ c ≠ 45 :=
  fun c hc => b64Encode_mem _ c hc

theorem hmacB64_inj (secret x y : List Nat) (hs : ∀ b ∈ secret, b < 256)
    (hx : ∀ b ∈ x, b < 256) (hy : ∀ b ∈ y, b < 256)
    (h : hmacB64 secret x = hmacB64 secret y) : x = y := by
  unfold hmacB64 at h
  have hmem : ∀ (z : List Nat), (∀ b ∈ z, b < 256) →
      ∀ b ∈ natDigs secret.length ++ 58 :: (secret ++ z), b < 256 := by
    intro z hz b hb
    simp only [List.mem_append, List.mem_cons] at hb
    rcases hb with hb | rfl | hb | hb
    · have := natDigs_mem _ _ hb
      omega
    · omega
    · exact hs b hb
    · exact hz b hb
  have hin := b64Encode_inj _ _ (hmem x hx) (hmem y hy) h
  have h2 := List.append_cancel_left hin
  rw [List.cons_eq_cons] at h2
  exact List.append_cancel_left h2.2

/-! ## C7: token round trip and tamper rejection -/

theorem verify_chain_none (typeOpt : Option Int) (now : Int)
    (S bd : List Nat) (sgo : Option (List Nat)) (v : JVal) (hS : S ≠ [])
    (hsg : ∀ s, sgo = some s → s ≠ hmacB64 S bd) :
    ((vCheckVersion v).bind fun v1 =>
      (vCheckType typeOpt v1).bind fun v2 =>
        (vCheckExpire now v2).bind fun v3 =>
          vCheckSig S bd sgo v3) = none := by
  have hsig : ∀ v3, vCheckSig S bd sgo v3 = none := by
    intro v3
    unfold vCheckSig
    rw [if_neg hS]
    cases hg : sgo with
    | none => rfl
    | some s =>
      dsimp only
      rw [if_neg (hsg s hg)]
  cases vCheckVersion v with
  | none => rfl
  | some v1 =>
    simp only [Option.some_bind]
    cases vCheckType typeOpt v1 with
    | none => rfl
    | some v2 =>
      simp only [Option.some_bind]
      cases vCheckExpire now v2 with
      | none => rfl
      | some v3 =>
        simp only [Option.some_bind]
        exact hsig v3

theorem tokenCreate_eq (d : List (List Nat × JVal)) (S : List Nat) (T : Int)
    (hS : S ≠ []) :
    tokenCreate d none S (some T) none
      = b64Encode (jrender (JVal.obj (objSet (objSet d kV (JVal.num 1)) kT
          (JVal.num T))))
        ++ 45 :: hmacB64 S (b64Encode (jrender (JVal.obj
            (objSet (objSet d kV (JVal.num 1)) kT (JVal.num T))))) := by
  simp [tokenCreate, hS, Option.getD]

theorem token_d3_eq (d : List (List Nat × JVal)) (T : Int)
    (hkV : ∀ p ∈ d, p.1 ≠ kV) (hkT : ∀ p ∈ d, p.1 ≠ kT) :
    objSet (objSet d kV (JVal.num 1)) kT (JVal.num T)
      = d ++ [(kV, JVal.num 1), (kT, JVal.num T)] := by
  rw [objSet_append d kV _ hkV]
  rw [objSet_append _ kT _ (by
    intro p hp
    rcases List.mem_append.mp hp with hp | hp
    · exact hkT p hp
    · simp at hp
      subst hp
      decide)]
  rw [List.append_assoc]
  rfl

theorem vCheckVersion_eq (d : List (List Nat × JVal)) (T : Int)
    (hkV : ∀ p ∈ d, p.1 ≠ kV) :
    vCheckVersion (JVal.obj (d ++ [(kV, JVal.num 1), (kT, JVal.num T)]))
      = some (JVal.obj (d ++ [(kT, JVal.num T)])) := by
  have hget : objGet (d ++ [(kV, JVal.num 1), (kT, JVal.num T)]) kV
      = some (JVal.num 1) := by
    rw [objGet_append_right]
    simp [objGet, kV, kT]
  have hdel : objDel (d ++ [(kV, JVal.num 1), (kT, JVal.num T)]) kV
      = objDel d kV ++ [(kT, JVal.num T)] := by
    unfold objDel
    rw [List.filter_append]
    simp [List.filter, kV, kT]
  unfold vCheckVersion
  simp only [jGet]
  rw [hget]
  simp only [isNumVal]
  rw [if_pos (by decide)]
  simp only [jDel]
  rw [hdel]
  rw [show objDel d kV = d from
    List.filter_eq_self.mpr (by intro p hp; simpa using hkV p hp)]

theorem vCheckType_eq (d : List (List Nat × JVal)) (T : Int)
    (hkT : ∀ p ∈ d, p.1 ≠ kT) :
    vCheckType (some T) (JVal.obj (d ++ [(kT, JVal.num T)]))
      = some (JVal.obj d) := by
  unfold vCheckType
  simp only [jGet]
  rw [objGet_append_self]
  simp only [isNumVal]
  rw [if_pos (by simp)]
  simp only [jDel]
  rw [objDel_append d kT _ hkT]

theorem vCheckExpire_eq (d : List (List Nat × JVal)) (now : Int)
    (hkE : ∀ p ∈ d, p.1 ≠ kE) :
    vCheckExpire now (JVal.obj d) = some (JVal.obj d) := by
  unfold vCheckExpire
  simp only [jGet]
  rw [objGet_eq_none d kE hkE]

theorem token_verify_create (d : List (List Nat × JVal)) (S : List Nat)
    (T now : Int) (hS : S ≠ []) (hSb : ∀ b ∈ S, b < 256)
    (hd : fieldsBytesOk d = true)
    (hkV : ∀ p ∈ d, p.1 ≠ kV) (hkT : ∀ p ∈ d, p.1 ≠ kT)
    (hkE : ∀ p ∈ d, p.1 ≠ kE) :
    tokenVerify (tokenCreate d none S (some T) none) (some T) S now
      = some (JVal.obj d) := by
  have hd3 := token_d3_eq d T hkV hkT
  have htok := tokenCreate_eq d S T hS
  set d3 := objSet (objSet d kV (JVal.num 1)) kT (JVal.num T) with hd3def
  set bd := b64Encode (jrender (JVal.obj d3)) with hbddef
  set sig := hmacB64 S bd with hsigdef
  have hbytes3 : jvalBytesOk (JVal.obj d3) = true := by
    show fieldsBytesOk d3 = true
    rw [hd3]
    rw [fieldsBytesOk_append]
    rw [hd]
    rfl
  have hbdmem : ∀ b ∈ bd, b < 128 ∧ b ≠ 45 := fun b hb => b64Encode_mem _ b hb
  have h45bd : 45 ∉ bd := fun h => (hbdmem 45 h).2 rfl
  have hsigmem : ∀ b ∈ sig, b < 128 ∧ b ≠ 45 :=
    fun b hb => b64Encode_mem _ b hb
  have h45sig : 45 ∉ sig := fun h => (hsigmem 45 h).2 rfl
  have htokne : bd ++ 45 :: sig ≠ [] := by simp
  have hsplit : splitByte 45 (bd ++ 45 :: sig) = [bd, sig] := by
    rw [splitByte_append 45 bd _ h45bd, splitByte_no 45 sig h45sig]
  have hdec : b64Decode bd = jrender (JVal.obj d3) := by
    rw [hbddef]
    exact b64_roundTrip _ _ le_rfl (jrender_bytes _ hbytes3)
  rw [htok]
  unfold tokenVerify
  rw [if_neg htokne]
  dsimp only
  rw [hsplit]
  rw [if_neg (by simp)]
  simp only [List.headD_cons]
  rw [hdec, jparseFull_render]
  dsimp only
  rw [hd3, vCheckVersion_eq d T hkV]
  simp only [Option.some_bind]
  rw [vCheckType_eq d T hkT]
  simp only [Option.some_bind]
  rw [vCheckExpire_eq d now hkE]
  simp only [Option.some_bind]
  unfold vCheckSig
  rw [if_neg hS]
  rw [if_neg (by simp [vIsObjLike])]
  rw [show ([bd, sig][1]? : Option (List Nat)) = some sig from rfl]
  dsimp only
  rw [if_pos hsigdef]

theorem tokenVerify_len_none (tok S : List Nat) (typeOpt : Option Int)
    (now : Int) (htok : tok ≠ []) (hlen : 2 < (splitByte 45 tok).length) :
    tokenVerify tok typeOpt S now = none := by
  unfold tokenVerify
  rw [if_neg htok]
  dsimp only
  rw [if_pos hlen]

theorem tokenVerify_sig_none (tok S : List Nat) (typeOpt : Option Int)
    (now : Int) (htok : tok ≠ []) (hS : S ≠ [])
    (hok : ¬ 2 < (splitByte 45 tok).length)
    (hsg : ∀ s, (splitByte 45 tok)[1]? = some s →
      s ≠ hmacB64 S ((splitByte 45 tok).headD [])) :
    tokenVerify tok typeOpt S now = none := by
  unfold tokenVerify
  rw [if_neg htok]
  dsimp only
  rw [if_neg hok]
  cases hjp : jparseFull (b64Decode ((splitByte 45 tok).headD [])) with
  | none => rfl
  | some v =>
    dsimp only
    by_cases hobj : vIsObjLike v
    · rw [if_neg (by simp [hobj])]
      exact verify_chain_none typeOpt now S _ _ v hS hsg
    · rw [if_pos (by simp [hobj])]

theorem flip_ne_self (a k : Nat) : a ^^^ 2 ^ k ≠ a := by
  intro hc
  have h2 : a ^^^ (a ^^^ 2 ^ k) = a ^^^ a := by rw [hc]
  rw [← Nat.xor_assoc, Nat.xor_self, Nat.zero_xor] at h2
  have hp : 0 < 2 ^ k := Nat.pos_pow_of_pos k (by omega)
  omega

theorem tokenVerify_flip_none (bd sig S : List Nat) (typeOpt : Option Int)
    (now : Int) (i k : Nat) (hS : S ≠ []) (hSb : ∀ b ∈ S, b < 256)
    (hbd : ∀ b ∈ bd, b < 128 ∧ b ≠ 45) (hsig : sig = hmacB64 S bd)
    (hi : i < (bd ++ 45 :: sig).length) (hk : k < 8) :
    tokenVerify (flipBit (bd ++ 45 :: sig) i k) typeOpt S now = none := by
  have hsigmem : ∀ b ∈ sig, b < 128 ∧ b ≠ 45 := by
    rw [hsig]
    exact fun b hb => b64Encode_mem _ b hb
  have h45bd : 45 ∉ bd := fun h => (hbd 45 h).2 rfl
  have h45sig : 45 ∉ sig := fun h => (hsigmem 45 h).2 rfl
  have h2k : 2 ^ k < 256 := by
    calc 2 ^ k < 2 ^ 8 := Nat.pow_lt_pow_right (by omega) hk
    _ = 256 := by norm_num
  have hxor : ∀ a : Nat, a < 256 → a ^^^ 2 ^ k < 256 := by
    intro a ha
    have h8 : (256 : Nat) = 2 ^ 8 := by norm_num
    rw [h8] at ha h2k ⊢
    exact Nat.xor_lt_two_pow ha h2k
  unfold flipBit
  rcases Nat.lt_trichotomy i bd.length with hlt | heqi | hgt
  · have hgd : (bd ++ 45 :: sig).getD i 0 = bd.getD i 0 :=
      List.getD_append bd _ 0 i hlt
    have hset : (bd ++ 45 :: sig).set i (bd.getD i 0 ^^^ 2 ^ k)
        = bd.set i (bd.getD i 0 ^^^ 2 ^ k) ++ 45 :: sig :=
      List.set_append_left i _ hlt
    rw [hgd, hset]
    have holdmem : bd.getD i 0 ∈ bd := by
      rw [List.getD_eq_getElem _ _ hlt]
      exact List.getElem_mem _
    have hold := hbd _ holdmem
    have hxne : bd.getD i 0 ^^^ 2 ^ k ≠ bd.getD i 0 := flip_ne_self _ k
    by_cases hx45 : bd.getD i 0 ^^^ 2 ^ k = 45
    · apply tokenVerify_len_none
      · simp
      · rw [splitByte_length]
        have h45mem : 45 ∈ bd.set i (bd.getD i 0 ^^^ 2 ^ k) := by
          rw [← hx45]
          exact List.mem_set bd i hlt _
        have hc1 := List.count_pos_iff.mpr h45mem
        have hge : (1 : Nat) ≤ (45 :: sig).count 45 := by
          rw [List.count_cons]
          simp
        rw [List.count_append]
        omega
    · have h45bd2 : 45 ∉ bd.set i (bd.getD i 0 ^^^ 2 ^ k) := by
        intro hmem
        rcases List.mem_or_eq_of_mem_set hmem with hm | hm
        · exact h45bd hm
        · exact hx45 hm.symm
      have hsp : splitByte 45 (bd.set i (bd.getD i 0 ^^^ 2 ^ k) ++ 45 :: sig)
          = [bd.set i (bd.getD i 0 ^^^ 2 ^ k), sig] := by
        rw [splitByte_append 45 _ _ h45bd2, splitByte_no 45 sig h45sig]
      apply tokenVerify_sig_none
      · simp
      · exact hS
      · rw [hsp]
        simp
      · rw [hsp]
        simp only [List.headD_cons]
        intro s hs
        have hseq : some sig = some s := by
          rw [← hs]
          rfl
        injection hseq with hseq
        subst hseq
        intro hcontra
        rw [hsig] at hcontra
        have hbdeq := hmacB64_inj S bd (bd.set i (bd.getD i 0 ^^^ 2 ^ k)) hSb
          (fun b hb => by have := hbd b hb; omega)
          (fun b hb => by
            rcases List.mem_or_eq_of_mem_set hb with hb2 | hb2
            · have := hbd b hb2
              omega
            · subst hb2
              exact hxor _ (by have := hold.1; omega))
          hcontra
        have hx : (bd.set i (bd.getD i 0 ^^^ 2 ^ k)).getD i 0
            = bd.getD i 0 ^^^ 2 ^ k := by
          rw [List.getD_eq_getElem _ _ (by simpa using hlt)]
          simp [List.getElem_set]
        rw [← hbdeq] at hx
        exact hxne hx.symm
  · subst heqi
    have hgd : (bd ++ 45 :: sig).getD bd.length 0 = 45 := by
      rw [List.getD_append_right bd _ 0 _ le_rfl]
      simp
    have hset : (bd ++ 45 :: sig).set bd.length (45 ^^^ 2 ^ k)
        = bd ++ (45 ^^^ 2 ^ k) :: sig := by
      rw [List.set_append_right _ _ le_rfl]
      simp
    rw [hgd, hset]
    have hx45 : 45 ^^^ 2 ^ k ≠ 45 := flip_ne_self 45 k
    have hno : 45 ∉ bd ++ (45 ^^^ 2 ^ k) :: sig := by
      intro hmem
      simp only [List.mem_append, List.mem_cons] at hmem
      rcases hmem with hm | hm | hm
      · exact h45bd hm
      · exact hx45 hm.symm
      · exact h45sig hm
    have hsp : splitByte 45 (bd ++ (45 ^^^ 2 ^ k) :: sig)
        = [bd ++ (45 ^^^ 2 ^ k) :: sig] := splitByte_no _ _ hno
    apply tokenVerify_sig_none
    · simp
    · exact hS
    · rw [hsp]
      simp
    · rw [hsp]
      intro s hs
      rw [show ([bd ++ (45 ^^^ 2 ^ k) :: sig][1]? : Option (List Nat))
          = none from rfl] at hs
      exact absurd hs (by simp)
  · obtain ⟨j, rfl⟩ : ∃ j, i = bd.length + 1 + j :=
      ⟨i - bd.length - 1, by omega⟩
    have hjlen : j < sig.length := by
      simp [List.length_append] at hi
      omega
    have hgd : (bd ++ 45 :: sig).getD (bd.length + 1 + j) 0 = sig.getD j 0 := by
      rw [List.getD_append_right bd _ 0 _ (by omega)]
      have he : bd.length + 1 + j - bd.length = j + 1 := by omega
      rw [he]
      rfl
    have hset : (bd ++ 45 :: sig).set (bd.length + 1 + j)
        (sig.getD j 0 ^^^ 2 ^ k)
        = bd ++ 45 :: sig.set j (sig.getD j 0 ^^^ 2 ^ k) := by
      rw [List.set_append_right _ _ (by omega)]
      have he : bd.length + 1 + j - bd.length = j + 1 := by omega
      rw [he]
      rfl
    rw [hgd, hset]
    have holdmem : sig.getD j 0 ∈ sig := by
      rw [List.getD_eq_getElem _ _ hjlen]
      exact List.getElem_mem _
    have hold := hsigmem _ holdmem
    have hxne : sig.getD j 0 ^^^ 2 ^ k ≠ sig.getD j 0 := flip_ne_self _ k
    by_cases hx45 : sig.getD j 0 ^^^ 2 ^ k = 45
    · apply tokenVerify_len_none
      · simp
      · rw [splitByte_length]
        have h45mem : 45 ∈ sig.set j (sig.getD j 0 ^^^ 2 ^ k) := by
          rw [← hx45]
          exact List.mem_set sig j hjlen _
        have hc1 := List.count_pos_iff.mpr h45mem
        have hcc : (45 :: sig.set j (sig.getD j 0 ^^^ 2 ^ k)).count 45
            = (sig.set j (sig.getD j 0 ^^^ 2 ^ k)).count 45 + 1 := by
          rw [List.count_cons]
          simp
        rw [List.count_append]
        omega
    · have h45sig2 : 45 ∉ sig.set j (sig.getD j 0 ^^^ 2 ^ k) := by
        intro hmem
        rcases List.mem_or_eq_of_mem_set hmem with hm | hm
        · exact h45sig hm
        · exact hx45 hm.symm
      have hsp : splitByte 45 (bd ++ 45 :: sig.set j (sig.getD j 0 ^^^ 2 ^ k))
          = [bd, sig.set j (sig.getD j 0 ^^^ 2 ^ k)] := by
        rw [splitByte_append 45 _ _ h45bd,
          splitByte_no 45 _ h45sig2]
      apply tokenVerify_sig_none
      · simp
      · exact hS
      · rw [hsp]
        simp
      · rw [hsp]
        simp only [List.headD_cons]
        intro s hs
        have hseq : some (sig.set j (sig.getD j 0 ^^^ 2 ^ k)) = some s := by
          rw [← hs]
          rfl
        injection hseq with hseq
        subst hseq
        intro hcontra
        rw [← hsig] at hcontra
        have hx : (sig.set j (sig.getD j 0 ^^^ 2 ^ k)).getD j 0
            = sig.getD j 0 ^^^ 2 ^ k := by
          rw [List.getD_eq_getElem _ _ (by simpa using hjlen)]
          simp [List.getElem_set]
        rw [hcontra] at hx
        exact hxne hx.symm

/-- C7: token round trip and tamper rejection.  For every payload object
without reserved keys whose strings are byte strings, every non-empty
byte-string secret and every defined type tag, verifying a freshly
created token with the same secret and type returns the payload (the
reserved `_v` and `_t` fields the creation added are stripped again, and
no `_e`/`_i` is present since neither expiry nor id was requested), at
every verification time; and flipping any single bit of any byte of the
token - in the data part, in the signature part, or in the separating
dash - makes verification reject.  The HMAC itself is spec-modelled: the
platform's `crypto.createHmac` is treated as an injective keyed MAC. -/
theorem token_roundTrip (d : List (List Nat × JVal)) (S : List Nat)
    (T now : Int) (hS : S ≠ []) (hSb : ∀ b ∈ S, b < 256)
    (hd : fieldsBytesOk d = true)
    (hkV : ∀ p ∈ d, p.1 ≠ kV) (hkT : ∀ p ∈ d, p.1 ≠ kT)
    (hkE : ∀ p ∈ d, p.1 ≠ kE) (hkI : ∀ p ∈ d, p.1 ≠ kI)
    (hT : T = TYPE_CLUSTER ∨ T = TYPE_HUB) :
    tokenVerify (tokenCreate d none S (some T) none) (some T) S now
      = some (JVal.obj d) ∧
    ∀ i k, i < (tokenCreate d none S (some T) none).length → k < 8 →
      tokenVerify (flipBit (tokenCreate d none S (some T) none) i k)
        (some T) S now = none := by
  constructor
  · exact token_verify_create d S T now hS hSb hd hkV hkT hkE
  · intro i k hi hk
    rw [tokenCreate_eq d S T hS] at hi ⊢
    exact tokenVerify_flip_none _ _ _ _ _ _ _ hS hSb
      (fun b hb => b64Encode_mem _ b hb) rfl hi hk

theorem token_roundTrip_witness :
    tokenVerify (tokenCreate [] none [65] (some 1) none) (some 1) [65] 0
      = some (JVal.obj []) ∧
    tokenVerify (flipBit (tokenCreate [] none [65] (some 1) none) 0 0)
      (some 1) [65] 0 = none :=
  have h := token_roundTrip [] [65] 1 0 (by decide) (by decide) rfl
    (by simp) (by simp) (by simp) (by simp) (Or.inl rfl)
  ⟨h.1, h.2 0 0 (by decide) (by decide)⟩


theorem alSet_mem {α : Type} (m : List (String × α)) (k : String) (v : α)
    (p : String × α) (hp : p ∈ alSet m k v) : p ∈ m ∨ p = (k, v) := by
  induction m with
  | nil =>
    simp [alSet] at hp
    right
    exact hp
  | cons q t ih =>
    obtain ⟨k0, v0⟩ := q
    simp only [alSet] at hp
    by_cases hk : k0 = k
    · simp only [hk, ite_true, List.mem_cons] at hp
      rcases hp with rfl | hp
      · right
        first | rfl | rw [hk]
      · left
        simp [hp]
    · simp only [hk, ite_false, List.mem_cons] at hp
      rcases hp with rfl | hp
      · left
        simp
      · rcases ih hp with h | h
        · left
          simp [h]
        · right
          exact h

/-! ## The claims on the cluster and the hub -/

/-- C1: refuted behaviour, shown on a concrete run.  The spec claims a
peer-delivered ChannelMessage is never re-sent to other peers.  In the
code the fourth argument of the hub publish is the object
`{nodes:false, broadcast:false}`, which is truthy, so only the per-node
fan-out is suppressed; when the receiving hub has no nodeChannels entry
for the channel the hub emits `node.broadcast` unconditionally, and the
cluster translates it into a ChannelMessage frame to every connected
peer.  Node A's cluster state knows peer B; a ChannelMessage received
from peer Z on a channel with no local entry is re-sent to peer B. -/
theorem receiveChannelMessage_rebroadcast :
    receiveChannelMessage
        ⟨"A", [("B", "1.2.3.4:23032")], [("1.2.3.4:23032", "B")], []⟩
        emptyHub "c1" "m" (some "Z")
      = (some false, [Frame.channelMessage "B" true "c1" "A" "m"]) := rfl

/-- C2 (amended): H-ClientImpliesNode holds in every hub state reachable
from the empty hub by subscribeNode, subscribeClient, unsubscribeClient,
removeClient and removeChannel, with every subscribeClient owned by the
cluster's fixed id N (the code always passes this.id, part_003 line
410): whenever a client id is a member of clientChannels[c], the owning
sid N is a member of nodeChannels[c].  The spec's full operation
alphabet also contains unsubscribeNode and removeNode, which break the
invariant (claim refuted by clientImpliesNode_cex): unsubscribeNode
deletes the node entry without consulting the client side. -/
theorem clientImpliesNode_runHOps (N : String) (ops : List HOp)
    (hown : ops.all (hopOwnedBy N) = true) :
    clientImpliesNodeMem N (runHOps emptyHub ops) := by
  apply inv_mem_runHOps N ops hown
  intro c l cid hget hmem
  simp [emptyHub, alGet] at hget

/-- A one-op run subscribing client C1 to channel ch under owner N
satisfies the ownership hypothesis, and the resulting hub keeps N among
the node subscribers of every client-populated channel. -/
theorem clientImpliesNode_runHOps_witness :
    ([HOp.opSubClient "N" "C1" "ch"].all (hopOwnedBy "N") = true) ∧
    clientImpliesNodeMem "N"
      (runHOps emptyHub [HOp.opSubClient "N" "C1" "ch"]) :=
  ⟨by decide, clientImpliesNode_runHOps "N" [HOp.opSubClient "N" "C1" "ch"]
    (by decide)⟩

/-- After subscribeClient("N","C1","ch") followed by
unsubscribeNode("N","ch"), client C1 is still recorded for "ch" but node
"N" is not: the invariant fails on a two-operation run. -/
theorem clientImpliesNode_cex :
    ¬ clientImpliesNode
      (unsubscribeNode (subscribeClient emptyHub "N" "C1" "ch").1 "N" "ch").1 := by
  intro hinv
  obtain ⟨l2, hl2, -⟩ := hinv "ch" ["C1"] (by rfl) (by simp)
  exact Option.noConfusion hl2

/-- C3 (amended): addNode preserves Cluster-NoSelf under every address
and every dial outcome; in particular a completed outbound self-dial
(the remote NodeInfo carries the node's own id) inserts nothing.  The
spec's claim over all reachable states is refuted by noSelf_cex: the
inbound admission path handleClusterClient has no self-check and inserts
the node's own id. -/
theorem noSelf_addNode (st : CState) (h : Hub) (cp : Int) (a : Addr)
    (outc : DialOutcome) (hns : noSelf st) :
    noSelf (addNode st h cp a outc).1 := by
  obtain ⟨h1, h2⟩ := hns
  unfold addNode
  cases hp : parseAddress cp a with
  | none => exact ⟨h1, h2⟩
  | some t =>
    obtain ⟨proto, ip, port⟩ := t
    simp only
    cases hg : alGet st.nodeIps (ip ++ ":" ++ toString port) with
    | some _ => exact ⟨h1, h2⟩
    | none =>
      by_cases hpend : (ip ++ ":" ++ toString port) ∈ st.pending
      · simp only [hpend, ite_true]
        exact ⟨h1, h2⟩
      · simp only [hpend, ite_false]
        cases outc with
        | connectFail => exact ⟨h1, h2⟩
        | connected sid cs =>
          simp only
          by_cases hsid : sid = st.selfId
          · simp only [hsid, ite_true]
            exact ⟨h1, h2⟩
          · simp only [hsid, ite_false]
            cases hn : alGet st.nodes sid with
            | some _ => exact ⟨h1, h2⟩
            | none =>
              refine ⟨?_, ?_⟩
              · rw [alGet_set_other _ _ _ _ (Ne.symm hsid)]
                exact h1
              · intro p hp
                rcases alSet_mem _ _ _ p hp with hmem | heq
                · exact h2 p hmem
                · rw [heq]
                  exact hsid


/-- The inbound admission path violates Cluster-NoSelf: a fresh node "A"
admitting a peer socket whose token carries `_i = "A"` (self-discovery)
inserts its own id into the nodes map. -/
theorem noSelf_cex :
    ¬ noSelf (handleClusterClient ⟨"A", [], [], []⟩ emptyHub "A" "1.2.3.4"
      (some 23032)).1 := by
  intro hns
  exact Option.noConfusion hns.1

theorem noSelf_addNode_witness :
    noSelf (⟨"A", [], [], []⟩ : CState) ∧
    noSelf (addNode ⟨"A", [], [], []⟩ emptyHub 23032
      (Addr.aobj (some "10.0.0.2") (some 23032) none)
      (.connected "B" none)).1 :=
  have hns : noSelf (⟨"A", [], [], []⟩ : CState) := ⟨rfl, by simp⟩
  ⟨hns, noSelf_addNode _ _ _ _ _ hns⟩

/-- C4 (amended): for node lists without duplicates (the hub never
stores a node id twice in one channel), unsubscribeNode is idempotent,
emits node.leave exactly when the node id was present, and emits
channel.remove exactly when the remaining node list is empty — with no
regard to client subscribers.  The spec's additional condition "and
there are no client subscribers" is refuted by unsubscribeNode_spec_cex. -/
theorem unsubscribeNode_spec (h : Hub) (sid c : String)
    (hnd : ∀ l, alGet h.nodeChannels c = some l → l.Nodup) :
    ((unsubscribeNode (unsubscribeNode h sid c).1 sid c).1
        = (unsubscribeNode h sid c).1) ∧
    ((unsubscribeNode (unsubscribeNode h sid c).1 sid c).2 = []) ∧
    (HEvent.nodeLeave c sid ∈ (unsubscribeNode h sid c).2 ↔
       ∃ l, alGet h.nodeChannels c = some l ∧ sid ∈ l) ∧
    (HEvent.channelRemove c ∈ (unsubscribeNode h sid c).2 ↔
       ∃ l, alGet h.nodeChannels c = some l ∧ l.erase sid = []) :=
  unsubscribeNode_characterize h sid c hnd

/-- With client C1 subscribed to "ch", removing the only node subscriber
still emits channel.remove: the spec's client-side condition fails. -/
theorem unsubscribeNode_spec_cex :
    HEvent.channelRemove "ch"
        ∈ (unsubscribeNode (subscribeClient emptyHub "N" "C1" "ch").1
            "N" "ch").2 ∧
    alGet (subscribeClient emptyHub "N" "C1" "ch").1.clientChannels "ch"
        = some ["C1"] := by
  constructor
  · decide
  · rfl

theorem unsubscribeNode_spec_witness :
    ((unsubscribeNode (unsubscribeNode (subscribeNode emptyHub "N" "ch").1
          "N" "ch").1 "N" "ch").1
        = (unsubscribeNode (subscribeNode emptyHub "N" "ch").1 "N" "ch").1) ∧
    ((unsubscribeNode (unsubscribeNode (subscribeNode emptyHub "N" "ch").1
          "N" "ch").1 "N" "ch").2 = []) ∧
    (HEvent.nodeLeave "ch" "N"
        ∈ (unsubscribeNode (subscribeNode emptyHub "N" "ch").1 "N" "ch").2 ↔
       ∃ l, alGet (subscribeNode emptyHub "N" "ch").1.nodeChannels "ch"
          = some l ∧ "N" ∈ l) ∧
    (HEvent.channelRemove "ch"
        ∈ (unsubscribeNode (subscribeNode emptyHub "N" "ch").1 "N" "ch").2 ↔
       ∃ l, alGet (subscribeNode emptyHub "N" "ch").1.nodeChannels "ch"
          = some l ∧ l.erase "N" = []) :=
  unsubscribeNode_spec (subscribeNode emptyHub "N" "ch").1 "N" "ch" (by
    intro l hl
    have h2 : some ["N"] = some l := hl
    injection h2 with h2
    subst h2
    decide)

/-- C5: refuted exit-path behaviour, shown on a concrete run.  Node "A"
already knows peer "B" under key "k"; a dial to the fresh address
10.0.0.2:23032 completes and the remote NodeInfo carries the id "B"
again (loser by second arrival).  The code destroys the socket and
returns false without clearing the pending flag, so the address key
stays in pending although no dial is in flight; the spec claims every
exit path clears it. -/
theorem addNode_pending_leak :
    (addNode ⟨"A", [("B", "k")], [("k", "B")], []⟩ emptyHub 23032
        (Addr.aobj (some "10.0.0.2") (some 23032) none)
        (.connected "B" none)).1.pending = ["10.0.0.2:23032"] ∧
    (addNode ⟨"A", [("B", "k")], [("k", "B")], []⟩ emptyHub 23032
        (Addr.aobj (some "10.0.0.2") (some 23032) none)
        (.connected "B" none)).2.2.1 = false := ⟨rfl, rfl⟩

/-- C8: the publish boolean of sendMessage is false exactly when the
channel has neither a nodeChannels nor a clientChannels entry, for every
channel, message, sender and ignore flag: it reports only whether any
subscriber was matched locally. -/
theorem sendMessage_false_iff (h : Hub) (c m : String)
    (senderSid : Option String) (ignoreNodes : Bool) :
    (sendMessage h c m senderSid ignoreNodes).1 = false ↔
      alGet h.nodeChannels c = none ∧ alGet h.clientChannels c = none :=
  sendMessage_events h c m senderSid ignoreNodes

/-- C9: over every trace of readiness-touching steps from the initial
state, the ready and clusterReady flags equal "some declaring step has
happened" (so they are monotone and never reset), the ready event is
emitted exactly once on the first declaring step and never again, events
arriving before readiness are queued in order, and the guarded flip
flushes exactly the events queued before the first declaring step. -/
theorem readiness_monotone (tr tr2 : List RStep) :
    (runRSteps initialRState tr).ready = tr.any isDeclare ∧
    (runRSteps initialRState tr).clusterReady = tr.any isDeclare ∧
    (runRSteps initialRState tr).readyEmits
      = (if tr.any isDeclare then 1 else 0) ∧
    (runRSteps initialRState (tr ++ tr2)).ready
      = ((runRSteps initialRState tr).ready || tr2.any isDeclare) ∧
    (runRSteps initialRState tr).pendingEvents
      = (if tr.any isDeclare then [] else tr.filterMap recvOtherId) ∧
    (runRSteps initialRState tr).flushed
      = (if tr.any isDeclare then
          (tr.takeWhile (fun st => !isDeclare st)).filterMap recvOtherId
        else []) := by
  obtain ⟨h1, h2, h3, h4, h5⟩ := runRSteps_characterize tr initialRState rfl
  obtain ⟨g1, g2, g3, g4, g5⟩ :=
    runRSteps_characterize (tr ++ tr2) initialRState rfl
  refine ⟨?_, ?_, ?_, ?_, ?_, ?_⟩
  · simpa [initialRState] using h1
  · simpa [initialRState] using h2
  · simpa [initialRState] using h3
  · rw [g1, h1]
    simp [List.any_append, initialRState]
  · simpa [initialRState] using h4
  · simpa [initialRState] using h5

/-- C10: the client-facing proxies coerce a numeric cid to its decimal
string; for every other invalid cid (non-string after coercion, or the
empty string) all three return false with the hub unchanged and no
events, and subscribeClient also returns false for every invalid
channel. -/
theorem proxies_invalid_cid (h : Hub) (selfId : String)
    (cid channel : JsPrim) (ch : String) (n : Int) :
    coerceCid (.pnum n) = .pstr (toString n) ∧
    (cidInvalid cid = true →
      clusterSubscribeClient h selfId cid channel = (false, h, []) ∧
      clusterUnsubscribeClient h cid channel = (false, h, []) ∧
      clusterIsClientSubscribed h cid ch = false) ∧
    (channelInvalid channel = true →
      clusterSubscribeClient h selfId cid channel = (false, h, [])) := by
  refine ⟨rfl, ?_, ?_⟩
  · intro hcid
    refine ⟨?_, ?_, ?_⟩
    · cases channel with
      | pstr chs =>
        unfold clusterSubscribeClient
        dsimp only
        by_cases hch : chs = ""
        · rw [if_pos hch]
        · rw [if_neg hch]
          cases cid with
          | pstr s =>
            have hs : s = "" := by simpa [cidInvalid] using hcid
            subst hs
            dsimp only [coerceCid]
            rw [if_pos rfl]
          | pnum m => exact absurd hcid (by simp [cidInvalid])
          | pbool b => rfl
          | pnull => rfl
          | pundef => rfl
          | pother => rfl
      | pnum m => rfl
      | pbool b => rfl
      | pnull => rfl
      | pundef => rfl
      | pother => rfl
    · unfold clusterUnsubscribeClient
      cases cid with
      | pstr s =>
        have hs : s = "" := by simpa [cidInvalid] using hcid
        subst hs
        dsimp only [coerceCid]
        rw [if_pos rfl]
      | pnum m => exact absurd hcid (by simp [cidInvalid])
      | pbool b => rfl
      | pnull => rfl
      | pundef => rfl
      | pother => rfl
    · unfold clusterIsClientSubscribed
      cases cid with
      | pstr s =>
        have hs : s = "" := by simpa [cidInvalid] using hcid
        subst hs
        dsimp only [coerceCid]
        rw [if_pos rfl]
      | pnum m => exact absurd hcid (by simp [cidInvalid])
      | pbool b => rfl
      | pnull => rfl
      | pundef => rfl
      | pother => rfl
  · intro hch
    cases channel with
    | pstr chs =>
      have hc : chs = "" := by simpa [channelInvalid] using hch
      subst hc
      unfold clusterSubscribeClient
      dsimp only
      rw [if_pos rfl]
    | pnum m => rfl
    | pbool b => rfl
    | pnull => rfl
    | pundef => rfl
    | pother => rfl

theorem proxies_invalid_cid_witness :
    cidInvalid JsPrim.pnull = true ∧
    clusterSubscribeClient emptyHub "A" JsPrim.pnull (JsPrim.pbool true)
      = (false, emptyHub, []) ∧
    clusterUnsubscribeClient emptyHub JsPrim.pnull (JsPrim.pbool true)
      = (false, emptyHub, []) ∧
    clusterIsClientSubscribed emptyHub JsPrim.pnull "c" = false ∧
    channelInvalid (JsPrim.pbool true) = true :=
  have h := proxies_invalid_cid emptyHub "A" JsPrim.pnull
    (JsPrim.pbool true) "c" 7
  have h2 := h.2.1 (by decide)
  ⟨by decide, h2.1, h2.2.1, h2.2.2, by decide⟩

end Quty
